import Mathlib

/-!
# Verification of the dungeon-crawler simulation core

A shallow embedding of the grid/tile data model, region labeling,
visibility computation and combat resolution of the dungeon crawler,
together with proofs and refutations of the specified properties.

Modelling conventions:
* JavaScript numbers used as integers are embedded as `Int` (player
  coordinates, hit points, damage) or `Nat` (grid indices, radii).
* Optional record fields (`revealed?: boolean`, `regionId?: number`, ...)
  are embedded as `Bool` when every use site only tests truthiness, and
  as `Option _` when the code distinguishes `undefined` (e.g. `regionId`).
* `Record<string, T>` objects are embedded as association lists
  (`List (String × T)`) with JavaScript object semantics: lookup of the
  key, in-place replacement on assignment of an existing key, append on
  assignment of a fresh key, removal on `delete`.
* Each call to `Math.random()` / `roll(lo, hi)` / `Date.now()` is an
  oracle: the value it produces is passed to the embedded function as an
  explicit argument.
* `Math.hypot(a, b) <= r` / `> r` comparisons, with all arguments
  integers, are embedded as the exact squared comparisons
  `a^2 + b^2 <= r^2` / `> r^2`; for integer inputs in the ranges used the
  floating-point comparison agrees with the exact one (the closest
  squared distance above `r^2` is `r^2 + 1`, far outside rounding error).
* The React `setGame` update queue is embedded by direct state passing:
  an `appendLog` call made while an updater runs is an update enqueued
  behind it, and since no updater reads or writes `log` except through
  `appendLog`, applying the append at its call site yields the same
  final state.
* A point update `tiles.map((row, ry) => ry === y ? row.map((t, cx) =>
  cx === x ? f(t) : t) : row)` is embedded as the structurally recursive
  `updateTiles` below, which replaces exactly the `y`-th row's `x`-th
  entry and leaves everything else untouched — the same function.
-/

/-! ## Tile and game data model (types.ts) -/

inductive TileType where
  | wall | room | corridor | door | secretDoor | trap | treasure | start | boss
deriving DecidableEq, Repr

inductive RegionType where
  | room | corridor
deriving DecidableEq, Repr

structure Tile where
  type : TileType
  explored : Bool
  visible : Bool
  regionType : Option RegionType
  regionId : Option Nat
  revealed : Bool
  triggered : Bool
  secretDoorLinks : Option (Nat × Nat)
  monsterId : Option String
  lootId : Option String
deriving DecidableEq, Repr

inductive FacingDirection where
  | north | south | east | west
deriving DecidableEq, Repr

structure MonsterArchetype where
  id : String
  name : String
  glyph : String
  maxHP : Int
  atk : Int
  defense : Int
  gold : Int
deriving DecidableEq, Repr

structure MonsterInstance where
  id : String
  archetypeId : String
  hp : Int
  pos : Nat × Nat
deriving DecidableEq, Repr

structure CombatState where
  active : Bool
  monsterId : Option String
  lastHitAt : Option Int
deriving DecidableEq, Repr

structure PlayerState where
  x : Int
  y : Int
  facing : Option FacingDirection
  hp : Int
  maxHP : Int
  atk : Int
  defense : Int
  gold : Int
deriving DecidableEq, Repr

/-! ## Grids -/

abbrev Grid := List (List Tile)

abbrev Pos := Nat × Nat

/-- A placeholder tile for total out-of-bounds lookups; the source never
reads out of bounds on the paths we verify. -/
def defaultTile : Tile :=
  { type := .wall, explored := false, visible := false, regionType := none,
    regionId := none, revealed := false, triggered := false,
    secretDoorLinks := none, monsterId := none, lootId := none }

/-- `tiles.length`. -/
def gridRows (g : Grid) : Nat := g.length

/-- `tiles[0]?.length ?? 0`. -/
def gridCols (g : Grid) : Nat := (g.headD []).length

/-- `tiles[y][x]`, total. -/
def getT (g : Grid) (x y : Nat) : Tile := (g.getD y []).getD x defaultTile

/-- `tiles[y][x]` with possibly negative indices (player coordinates). -/
def getTI (g : Grid) (x y : Int) : Tile :=
  if 0 ≤ x ∧ 0 ≤ y then getT g x.toNat y.toNat else defaultTile

/-- The grid is rectangular: every row has the width reported by
`gridCols`. -/
def Rect (g : Grid) : Prop := ∀ y < gridRows g, (g.getD y []).length = gridCols g

instance (g : Grid) : Decidable (Rect g) := by unfold Rect; infer_instance

/-- In bounds for a `cols × rows` grid. -/
def inB (cols rows : Nat) (p : Pos) : Prop := p.1 < cols ∧ p.2 < rows

instance (cols rows : Nat) (p : Pos) : Decidable (inB cols rows p) := by
  unfold inB; infer_instance

/-- Replace the `x`-th element of a row by `f` of it. -/
def updateRow (f : Tile → Tile) : Nat → List Tile → List Tile
  | _, [] => []
  | 0, t :: ts => f t :: ts
  | x + 1, t :: ts => t :: updateRow f x ts

/-- `updateTiles` from the game component: copy the grid replacing the
single cell at `(x, y)` by `f` of the old tile. -/
def updateTiles : Grid → Nat → Nat → (Tile → Tile) → Grid
  | [], _, _, _ => []
  | row :: rest, x, 0, f => updateRow f x row :: rest
  | row :: rest, x, ry + 1, f => row :: updateTiles rest x ry f

/-- Row map carrying the running column index, starting at `k`:
`row.map((t, cx) => f(cx, t))`. -/
def mapRowFrom (f : Nat → Tile → Tile) : Nat → List Tile → List Tile
  | _, [] => []
  | k, t :: ts => f k t :: mapRowFrom f (k + 1) ts

/-- Grid map carrying the running row index, starting at `k`:
`tiles.map((row, y) => row.map((t, x) => f(x, y, t)))`. -/
def mapGridFrom (f : Nat → Nat → Tile → Tile) : Nat → Grid → Grid
  | _, [] => []
  | k, row :: rest => mapRowFrom (fun x t => f x k t) 0 row :: mapGridFrom f (k + 1) rest

/-- `tiles.map((row, y) => row.map((t, x) => f(x, y, t)))`. -/
def mapGridIdx (f : Nat → Nat → Tile → Tile) (g : Grid) : Grid := mapGridFrom f 0 g

/-! ### Grid indexing lemmas -/

theorem getT_nil (x y : Nat) : getT [] x y = defaultTile := by
  simp [getT]

theorem getD_map_tile (f : Tile → Tile) (l : List Tile) (i : Nat) :
    (l.map f).getD i defaultTile =
      if i < l.length then f (l.getD i defaultTile) else defaultTile := by
  induction l generalizing i with
  | nil => simp
  | cons a l ih =>
    cases i with
    | zero => simp
    | succ i => simpa [Nat.succ_lt_succ_iff] using ih i

theorem length_mapRowFrom (f : Nat → Tile → Tile) (k : Nat) (l : List Tile) :
    (mapRowFrom f k l).length = l.length := by
  induction l generalizing k with
  | nil => rfl
  | cons a l ih => simp [mapRowFrom, ih]

theorem getD_mapRowFrom (f : Nat → Tile → Tile) (k : Nat) (l : List Tile) (i : Nat) :
    (mapRowFrom f k l).getD i defaultTile =
      if i < l.length then f (k + i) (l.getD i defaultTile) else defaultTile := by
  induction l generalizing k i with
  | nil => simp [mapRowFrom]
  | cons a l ih =>
    cases i with
    | zero => simp [mapRowFrom]
    | succ i =>
      simp only [mapRowFrom, List.getD_cons_succ, List.length_cons,
        Nat.succ_lt_succ_iff, ih]
      rcases Nat.lt_or_ge i l.length with h | h
      · simp [h, Nat.add_assoc, Nat.add_comm 1 i]
      · simp [Nat.not_lt.mpr h]

theorem length_mapGridFrom (f : Nat → Nat → Tile → Tile) (k : Nat) (g : Grid) :
    (mapGridFrom f k g).length = g.length := by
  induction g generalizing k with
  | nil => rfl
  | cons r g ih => simp [mapGridFrom, ih]

theorem getT_mapGridIdx (f : Nat → Nat → Tile → Tile) (g : Grid) (x y : Nat) :
    getT (mapGridIdx f g) x y =
      if y < g.length ∧ x < (g.getD y []).length then f x y (getT g x y)
      else defaultTile := by
  suffices h : ∀ k, getT (mapGridFrom f k g) x y =
      if y < g.length ∧ x < (g.getD y []).length then f x (k + y) (getT g x y)
      else defaultTile by
    simpa using h 0
  intro k
  induction g generalizing k y with
  | nil => simp [mapGridFrom, getT]
  | cons row rest ih =>
    cases y with
    | zero =>
      simp only [mapGridFrom, getT, List.getD_cons_zero, getD_mapRowFrom]
      rcases Nat.lt_or_ge x row.length with h | h <;>
        simp [h, Nat.lt_irrefl, Nat.zero_lt_succ]
    | succ y =>
      simp only [mapGridFrom, getT, List.getD_cons_succ] at ih ⊢
      rw [ih y (k + 1)]
      simp only [List.length_cons, Nat.succ_lt_succ_iff]
      rcases Nat.lt_or_ge y rest.length with h | h
      · rcases Nat.lt_or_ge x ((rest.getD y []).length) with h2 | h2 <;>
          simp [h, h2, Nat.add_assoc, Nat.add_comm 1 y]
      · simp [Nat.not_lt.mpr h]

theorem length_updateRow (f : Tile → Tile) (x : Nat) (l : List Tile) :
    (updateRow f x l).length = l.length := by
  induction l generalizing x with
  | nil => cases x <;> rfl
  | cons a l ih =>
    cases x with
    | zero => rfl
    | succ x => simp [updateRow, ih]

theorem getD_updateRow (f : Tile → Tile) (x : Nat) (l : List Tile) (i : Nat) :
    (updateRow f x l).getD i defaultTile =
      if i = x ∧ x < l.length then f (l.getD i defaultTile)
      else l.getD i defaultTile := by
  induction l generalizing x i with
  | nil => simp [updateRow]
  | cons a l ih =>
    cases x with
    | zero =>
      cases i with
      | zero => simp [updateRow]
      | succ i => simp [updateRow]
    | succ x =>
      cases i with
      | zero => simp [updateRow]
      | succ i =>
        simp only [updateRow, List.getD_cons_succ, ih, List.length_cons,
          Nat.succ_lt_succ_iff, Nat.succ_inj']

theorem length_updateTiles (g : Grid) (x y : Nat) (f : Tile → Tile) :
    (updateTiles g x y f).length = g.length := by
  induction g generalizing y with
  | nil => rfl
  | cons row rest ih =>
    cases y with
    | zero => simp [updateTiles]
    | succ y => simp [updateTiles, ih]

theorem getT_updateTiles (g : Grid) (x y : Nat) (f : Tile → Tile) (a b : Nat) :
    getT (updateTiles g x y f) a b =
      if a = x ∧ b = y ∧ y < g.length ∧ x < (g.getD y []).length then
        f (getT g a b)
      else getT g a b := by
  induction g generalizing y b with
  | nil => simp [updateTiles, getT]
  | cons row rest ih =>
    cases y with
    | zero =>
      cases b with
      | zero =>
        simp only [updateTiles, getT, List.getD_cons_zero, getD_updateRow,
          List.length_cons]
        rcases Decidable.em (a = x ∧ x < row.length) with h | h
        · simp [h.1, h.2, Nat.zero_lt_succ]
        · rw [if_neg h, if_neg (by
            rintro ⟨h1, -, -, h4⟩
            exact h ⟨h1, h4⟩)]
      | succ b => simp [updateTiles, getT]
    | succ y =>
      cases b with
      | zero => simp [updateTiles, getT]
      | succ b =>
        simp only [updateTiles, getT, List.getD_cons_succ, List.length_cons,
          Nat.succ_lt_succ_iff, Nat.succ_inj'] at ih ⊢
        exact ih y b

/-- Cells other than the updated one are untouched, unconditionally. -/
theorem getT_updateTiles_other (g : Grid) (x y : Nat) (f : Tile → Tile) (a b : Nat)
    (h : ¬(a = x ∧ b = y)) :
    getT (updateTiles g x y f) a b = getT g a b := by
  rw [getT_updateTiles, if_neg (by tauto)]

theorem gridCols_updateTiles (g : Grid) (x y : Nat) (f : Tile → Tile) :
    gridCols (updateTiles g x y f) = gridCols g := by
  cases g with
  | nil => rfl
  | cons row rest =>
    cases y with
    | zero => simp [updateTiles, gridCols, List.headD, length_updateRow]
    | succ y => simp [updateTiles, gridCols, List.headD]

theorem gridRows_updateTiles (g : Grid) (x y : Nat) (f : Tile → Tile) :
    gridRows (updateTiles g x y f) = gridRows g := length_updateTiles g x y f

theorem rowLen_updateTiles (g : Grid) (x y : Nat) (f : Tile → Tile) (b : Nat) :
    ((updateTiles g x y f).getD b []).length = (g.getD b []).length := by
  induction g generalizing y b with
  | nil => simp [updateTiles]
  | cons row rest ih =>
    cases y with
    | zero =>
      cases b with
      | zero => simp [updateTiles, length_updateRow]
      | succ b => simp [updateTiles]
    | succ y =>
      cases b with
      | zero => simp [updateTiles]
      | succ b => simpa [updateTiles] using ih y b

theorem rect_updateTiles (g : Grid) (x y : Nat) (f : Tile → Tile) (hr : Rect g) :
    Rect (updateTiles g x y f) := by
  intro b hb
  rw [gridCols_updateTiles, rowLen_updateTiles]
  exact hr b (by simpa [gridRows_updateTiles] using hb)

/-! ## Combat dice (roll, damage) -/

/-- `GRID_SIZE`. -/
def GRID_SIZE : Nat := 16
/-- `VISION_RADIUS`. -/
def VISION_RADIUS : Nat := 4
/-- `MAX_LOG`. -/
def MAX_LOG : Nat := 30
/-- `SEARCH_DISTANCE`. -/
def SEARCH_DISTANCE : Nat := 10

/-- The damage formula used by both sides of an attack exchange:
`Math.max(1, atk + rollValue - def)`. -/
def damageRoll (atk rollValue defense : Int) : Int :=
  max 1 (atk + rollValue - defense)

/-! ## Visibility (visibility.ts) -/

/-- `isOpaque`. -/
def isOpaque (t : Tile) : Bool :=
  t.type == .wall || (t.type == .secretDoor && !t.revealed)

/-- The Bresenham loop of `hasLineOfSight`, with the number of remaining
iterations made explicit (`fuel`); the JavaScript loop always terminates
within `|dx| + |dy|` iterations, and `hasLineOfSight` below supplies one
more than that, so the fuel never runs out. -/
def losWalk (g : Grid) (fx fy x1 y1 dx dy sx sy : Int) :
    Nat → Int → Int → Int → Bool
  | 0, _, _, _ => true
  | fuel + 1, x0, y0, err =>
    if x0 = x1 ∧ y0 = y1 then true
    else if ¬(x0 = fx ∧ y0 = fy) ∧ isOpaque (getTI g x0 y0) then false
    else
      let e2 := 2 * err
      let err1 := if e2 > -dy then err - dy else err
      let x0' := if e2 > -dy then x0 + sx else x0
      let err2 := if e2 < dx then err1 + dx else err1
      let y0' := if e2 < dx then y0 + sy else y0
      losWalk g fx fy x1 y1 dx dy sx sy fuel x0' y0' err2

/-- `hasLineOfSight(tiles, from, to)`. -/
def hasLineOfSight (g : Grid) (f t : Int × Int) : Bool :=
  let dx := |t.1 - f.1|
  let dy := |t.2 - f.2|
  let sx : Int := if f.1 < t.1 then 1 else -1
  let sy : Int := if f.2 < t.2 then 1 else -1
  losWalk g f.1 f.2 t.1 t.2 dx dy sx sy (dx + dy + 1).toNat f.1 f.2 (dx - dy)

/-- The per-tile update of `computeVisibility`: first every tile gets
`visible: false`, then each tile in the bounding window whose distance is
within the radius and which has line of sight from the observer gets
`visible = true` and `explored = true`.  Line of sight and distance are
computed from the input grid and the indices only, so the two loops of
the source are exactly this per-cell map. -/
def visCond (g : Grid) (px py radius : Nat) (x y : Nat) : Bool :=
  decide (py - radius - 1 ≤ y) && decide (y < min (gridRows g) (py + radius + 2)) &&
  decide (px - radius - 1 ≤ x) && decide (x < min (gridCols g) (px + radius + 2)) &&
  decide (((px : Int) - x) ^ 2 + ((py : Int) - y) ^ 2 ≤ (radius : Int) ^ 2) &&
  hasLineOfSight g ((px : Int), (py : Int)) ((x : Int), (y : Int))

/-- `computeVisibility(tiles, playerPos, radius)`. -/
def computeVisibility (g : Grid) (playerPos : Pos) (radius : Nat) : Grid :=
  mapGridIdx
    (fun x y t =>
      if visCond g playerPos.1 playerPos.2 radius x y then
        { t with visible := true, explored := true }
      else { t with visible := false })
    g

/-! ## Region labeling (dungeonGen.ts) -/

/-- `isPassable`. -/
def isPassable (t : Tile) : Bool :=
  !(t.type == .wall) && !(t.type == .secretDoor && !t.revealed)

/-- `inferRegionType`. -/
def inferRegionType (t : Tile) : RegionType :=
  match t.regionType with
  | some rt => rt
  | none =>
    if t.type = .room ∨ t.type = .start ∨ t.type = .boss ∨ t.type = .treasure
    then .room else .corridor

/-- `dirs` of `labelRegions`: right, left, down, up. -/
def labelDirs : List (Int × Int) := [(1, 0), (-1, 0), (0, 1), (0, -1)]

/-- The neighbours of `(x, y)` pushed on the BFS queue: in bounds,
passable and not yet labeled (all checked on the current grid, as in the
source's `dirs.forEach`). -/
def pushNeighbors (cols rows : Nat) (g : Grid) (x y : Nat) : List Pos :=
  labelDirs.filterMap fun d =>
    let nx : Int := (x : Int) + d.1
    let ny : Int := (y : Int) + d.2
    if 0 ≤ nx ∧ 0 ≤ ny ∧ nx < (cols : Int) ∧ ny < (rows : Int) then
      let p : Pos := (nx.toNat, ny.toNat)
      let nb := getT g p.1 p.2
      if isPassable nb = true ∧ nb.regionId = none then some p else none
    else none

/-- The tile written when the BFS labels a cell:
`{ ...t, regionId: currentRegion, regionType: inferRegionType(t) }`. -/
def paint (t : Tile) (cur : Nat) : Tile :=
  { t with regionId := some cur, regionType := some (inferRegionType t) }

/-- The `while (queue.length)` BFS of `labelRegions`, with explicit fuel.
Each iteration shifts one node off the queue; a node is labeled (and its
unlabeled passable neighbours pushed) only if it is still passable and
unlabeled.  `labelLoop` supplies fuel `5 * (rows * cols) + 5`, which is
proven sufficient below (every cell is pushed at most five times). -/
def bfsFill (cols rows cur : Nat) : Nat → List Pos → Grid → Grid
  | 0, _, g => g
  | _ + 1, [], g => g
  | fuel + 1, p :: queue, g =>
    let t := getT g p.1 p.2
    if isPassable t = true ∧ t.regionId = none then
      let g' := updateTiles g p.1 p.2 (fun u => paint u cur)
      bfsFill cols rows cur fuel (queue ++ pushNeighbors cols rows g' p.1 p.2) g'
    else bfsFill cols rows cur fuel queue g

/-- The raster positions `(x, y)` for `y` in `[0, rows)` (outer loop) and
`x` in `[0, cols)` (inner loop). -/
def rowMajor (cols rows : Nat) : List Pos :=
  (List.range rows).flatMap fun y => (List.range cols).map fun x => (x, y)

/-- The outer double loop of `labelRegions`: scan the raster order; at
each passable unlabeled cell run the flood fill with the next region id. -/
def labelLoop (cols rows : Nat) : List Pos → Nat → Grid → Grid
  | [], _, g => g
  | p :: rest, cur, g =>
    let t := getT g p.1 p.2
    if isPassable t = true ∧ t.regionId = none then
      labelLoop cols rows rest (cur + 1)
        (bfsFill cols rows cur (5 * (rows * cols) + 5) [p] g)
    else labelLoop cols rows rest cur g

/-- `labelRegions(tiles)`. -/
def labelRegions (g : Grid) : Grid :=
  let rows := gridRows g
  let cols := gridCols g
  let reset := g.map fun row =>
    row.map fun t => { t with regionId := none, regionType := some (inferRegionType t) }
  labelLoop cols rows (rowMajor cols rows) 1 reset

/-! ## Reachability (the specification side of region labeling) -/

/-- 4-directional adjacency of grid positions. -/
def adj4 (p q : Pos) : Prop :=
  (q.1 = p.1 + 1 ∧ q.2 = p.2) ∨ (p.1 = q.1 + 1 ∧ q.2 = p.2) ∨
  (q.2 = p.2 + 1 ∧ q.1 = p.1) ∨ (p.2 = q.2 + 1 ∧ q.1 = p.1)

instance (p q : Pos) : Decidable (adj4 p q) := by unfold adj4; infer_instance

/-- One step between in-bounds passable cells. -/
def AdjP (cols rows : Nat) (pass : Pos → Prop) (p q : Pos) : Prop :=
  inB cols rows p ∧ inB cols rows q ∧ pass p ∧ pass q ∧ adj4 p q

/-- Connectivity: a path of 4-directionally adjacent passable tiles. -/
def ReachP (cols rows : Nat) (pass : Pos → Prop) : Pos → Pos → Prop :=
  Relation.ReflTransGen (AdjP cols rows pass)

/-- The passability of the tile at `p`. -/
def passAt (g : Grid) (p : Pos) : Prop := isPassable (getT g p.1 p.2) = true

instance (g : Grid) (p : Pos) : Decidable (passAt g p) := by
  unfold passAt; infer_instance

theorem adj4_symm {p q : Pos} (h : adj4 p q) : adj4 q p := by
  unfold adj4 at *; tauto

theorem AdjP_symm {cols rows : Nat} {pass : Pos → Prop} {p q : Pos}
    (h : AdjP cols rows pass p q) : AdjP cols rows pass q p := by
  obtain ⟨h1, h2, h3, h4, h5⟩ := h
  exact ⟨h2, h1, h4, h3, adj4_symm h5⟩

theorem ReachP_symm {cols rows : Nat} {pass : Pos → Prop} {p q : Pos}
    (h : ReachP cols rows pass p q) : ReachP cols rows pass q p := by
  induction h with
  | refl => exact Relation.ReflTransGen.refl
  | tail _ hstep ih =>
    exact Relation.ReflTransGen.trans
      (Relation.ReflTransGen.single (AdjP_symm hstep)) ih

theorem ReachP_mono {cols rows : Nat} {pass pass' : Pos → Prop} {p q : Pos}
    (hp : ∀ r, pass r → pass' r) (h : ReachP cols rows pass p q) :
    ReachP cols rows pass' p q := by
  induction h with
  | refl => exact Relation.ReflTransGen.refl
  | tail _ hstep ih =>
    obtain ⟨h1, h2, h3, h4, h5⟩ := hstep
    exact Relation.ReflTransGen.tail ih ⟨h1, h2, hp _ h3, hp _ h4, h5⟩

/-- Members of a reachability class are in bounds and passable (unless
the path is trivial). -/
theorem ReachP_inv {cols rows : Nat} {pass : Pos → Prop} {s p : Pos}
    (h : ReachP cols rows pass s p) (hs : inB cols rows s ∧ pass s) :
    inB cols rows p ∧ pass p := by
  induction h with
  | refl => exact hs
  | tail _ hstep _ => exact ⟨hstep.2.1, hstep.2.2.2.1⟩

/-! ## Game state and commands (the React component) -/

structure GameState where
  gridSize : Nat
  tiles : Grid
  player : PlayerState
  monstersById : List (String × MonsterInstance)
  archetypesById : List (String × MonsterArchetype)
  combat : CombatState
  log : List String
  inventory : List String
deriving DecidableEq, Repr

/-- Record lookup `obj[key]` (`undefined` if absent). -/
def lookupStr {α : Type} (m : List (String × α)) (k : String) : Option α :=
  (m.find? (fun kv => kv.1 == k)).map (·.2)

/-- Record assignment `obj[key] = v`: replace in place if the key exists,
append otherwise. -/
def setStr {α : Type} (m : List (String × α)) (k : String) (v : α) :
    List (String × α) :=
  if m.any (fun kv => kv.1 == k) then
    m.map (fun kv => if kv.1 == k then (k, v) else kv)
  else m ++ [(k, v)]

/-- Record deletion `delete obj[key]`. -/
def eraseStr {α : Type} (m : List (String × α)) (k : String) :
    List (String × α) :=
  m.filter (fun kv => !(kv.1 == k))

/-- JavaScript truthiness of `string | null | undefined`: falsy exactly
when absent or the empty string. -/
def strFalsy : Option String → Bool
  | none => true
  | some s => s == ""

/-- `[...log, message].slice(-MAX_LOG)`. -/
def appendLogList (log : List String) (m : String) : List String :=
  let l := log ++ [m]
  l.drop (l.length - MAX_LOG)

/-- The net effect of one queued `appendLog(message)` update. -/
def appendLogState (s : GameState) (m : String) : GameState :=
  { s with log := appendLogList s.log m }

/-- `tryMove(dx, dy)`: the net effect of the queued functional update
together with the `appendLog` updates it enqueues, with the trap-damage
roll `roll(5, 15)` and the treasure-gold roll `roll(10, 25)` passed as
oracles. -/
def tryMove (prev : GameState) (dx dy : Int) (trapRoll goldRoll : Int) : GameState :=
  if prev.combat.active = true ∨ prev.player.hp ≤ 0 then prev
  else
    let newX := prev.player.x + dx
    let newY := prev.player.y + dy
    if newX < 0 ∨ newY < 0 ∨ (prev.gridSize : Int) ≤ newX ∨ (prev.gridSize : Int) ≤ newY then
      appendLogState prev "You cannot go that way."
    else
      let target := getT prev.tiles newX.toNat newY.toNat
      if target.type = .wall then
        appendLogState prev "A solid wall blocks the path."
      else if target.type = .secretDoor ∧ target.revealed = false then
        appendLogState prev "You sense a dead end here."
      else
        let s0 : GameState :=
          { prev with player := { prev.player with x := newX, y := newY } }
        let s1 : GameState :=
          if target.type = .trap ∧ target.triggered = false then
            let s := appendLogState s0
              ("A hidden trap springs! You take " ++ toString trapRoll ++ " damage.")
            { s with
              player := { s.player with hp := max 0 (s.player.hp - trapRoll) },
              tiles := updateTiles s.tiles newX.toNat newY.toNat
                (fun t => { t with revealed := true, triggered := true }) }
          else s0
        let s2 : GameState :=
          if target.type = .treasure then
            let s := appendLogState s1 ("You find " ++ toString goldRoll ++ " gold.")
            { s with
              player := { s.player with gold := s.player.gold + goldRoll },
              tiles := updateTiles s.tiles newX.toNat newY.toNat
                (fun t => { t with type := .corridor, lootId := none }) }
          else s1
        let s3 : GameState :=
          match target.monsterId with
          | some mid =>
            if mid = "" then s2
            else
              match lookupStr prev.monstersById mid with
              | some monster =>
                let aname :=
                  ((lookupStr prev.archetypesById monster.archetypeId).map
                    (fun a => MonsterArchetype.name a)).getD ""
                let s := appendLogState s2 ("A " ++ aname ++ " engages you!")
                { s with combat :=
                  { active := true, monsterId := some monster.id, lastHitAt := none } }
              | none => s2
          | none => s2
        let withRegions := labelRegions s3.tiles
        let withVisibility :=
          computeVisibility withRegions (newX.toNat, newY.toNat) VISION_RADIUS
        let s4 : GameState := { s3 with tiles := withVisibility }
        if s4.player.hp ≤ 0 then appendLogState s4 "You succumb to your wounds." else s4

/-- One iteration of the double scan loop in `searchAround`. -/
def searchStep (px py : Int) (playerRegion : Option Nat) (draws : Nat → Nat → Bool)
    (acc : Grid × List String) (p : Pos) : Grid × List String :=
  let tile := getT acc.1 p.1 p.2
  if playerRegion = none ∨ tile.regionId ≠ playerRegion then acc
  else if ((SEARCH_DISTANCE : Int)) ^ 2 < (px - p.1) ^ 2 + (py - p.2) ^ 2 then acc
  else if (tile.type = .trap ∨ tile.type = .secretDoor) ∧ tile.revealed = false then
    if draws p.1 p.2 then
      (updateTiles acc.1 p.1 p.2 (fun t => { t with revealed := true }),
       acc.2 ++ [if tile.type = .trap then "trap" else "secret door"])
    else acc
  else acc

/-- `searchAround()`: the scan visits each `(x, y)` of the grid once in
raster order, and each candidate consumes one `Math.random()` draw, here
passed as an oracle indexed by the candidate's coordinates (the scan
order pairs the draw stream with candidates bijectively). -/
def searchAround (prev : GameState) (draws : Nat → Nat → Bool) : GameState :=
  if prev.player.hp ≤ 0 then prev
  else
    let playerRegion := (getTI prev.tiles prev.player.x prev.player.y).regionId
    let scan := (rowMajor prev.gridSize prev.gridSize).foldl
      (searchStep prev.player.x prev.player.y playerRegion draws) (prev.tiles, [])
    let found := scan.2
    let needsRelabel := found.any (fun f => f == "secret door")
    let nextTiles := if needsRelabel then labelRegions scan.1 else scan.1
    let message :=
      if found.length = 0 then
        "You search carefully (85% focus) but find nothing in this area."
      else "You discover " ++ String.intercalate " and " found ++ " nearby!"
    { prev with tiles := nextTiles, log := appendLogList prev.log message }

/-- `resolveMonsterAttack(state)`, with the retaliation roll `roll(1, 6)`
passed as an oracle. -/
def resolveMonsterAttack (state : GameState) (rollValue : Int) : GameState :=
  match state.combat.monsterId with
  | none => state
  | some mid =>
    if state.combat.active = false ∨ mid = "" then state
    else
      match lookupStr state.monstersById mid with
      | none => state
      | some monster =>
        match lookupStr state.archetypesById monster.archetypeId with
        | none => state
        | some archetype =>
          let damage := damageRoll archetype.atk rollValue state.player.defense
          let hp := state.player.hp - damage
          let s := appendLogState state
            ("The " ++ archetype.name ++ " strikes you for " ++ toString damage ++ " damage.")
          let s' := { s with player := { s.player with hp := hp } }
          if hp ≤ 0 then appendLogState s' "You fall to the dungeon floor..." else s'

/-- `resolvePlayerAttack()`: the attack roll `roll(1, 6)`, the
`Date.now()` timestamp and the retaliation roll are passed as oracles. -/
def resolvePlayerAttack (prev : GameState) (rollValue now retRoll : Int) : GameState :=
  if prev.combat.active = false ∨ strFalsy prev.combat.monsterId = true ∨
      prev.player.hp ≤ 0 then prev
  else
    match prev.combat.monsterId with
    | none => prev
    | some mid =>
      match lookupStr prev.monstersById mid with
      | none => prev
      | some monster =>
        match lookupStr prev.archetypesById monster.archetypeId with
        | none => prev
        | some archetype =>
          let damage := damageRoll prev.player.atk rollValue archetype.defense
          let newHP := monster.hp - damage
          let s0 := appendLogState prev
            ("You strike the " ++ archetype.name ++ " for " ++ toString damage ++ " damage.")
          if newHP ≤ 0 then
            let s1 := appendLogState s0
              ("The " ++ archetype.name ++ " falls! +" ++ toString archetype.gold ++ " gold")
            { s1 with
              player := { s1.player with gold := s1.player.gold + archetype.gold },
              tiles := updateTiles s1.tiles monster.pos.1 monster.pos.2
                (fun t => { t with monsterId := none }),
              monstersById := eraseStr s1.monstersById monster.id,
              combat := { active := false, monsterId := none, lastHitAt := none } }
          else
            let afterPlayer :=
              { s0 with
                monstersById := setStr s0.monstersById monster.id { monster with hp := newHP },
                combat := { s0.combat with lastHitAt := some now } }
            resolveMonsterAttack afterPlayer retRoll

/-! ## Sample states for concrete evaluations -/

/-- A tile of the given type with all optional fields in their
just-created state. -/
def mkTile (ty : TileType) : Tile :=
  { type := ty, explored := false, visible := false, regionType := none,
    regionId := none, revealed := false, triggered := false,
    secretDoorLinks := none, monsterId := none, lootId := none }

/-- A game state with a dead player. -/
def deadState : GameState :=
  { gridSize := 2,
    tiles := [[mkTile .room, mkTile .wall], [mkTile .corridor, mkTile .room]],
    player := { x := 0, y := 0, facing := none, hp := 0, maxHP := 40, atk := 6,
                defense := 4, gold := 0 },
    monstersById := [], archetypesById := [],
    combat := { active := false, monsterId := none, lastHitAt := none },
    log := [], inventory := [] }

/-! ## C1: combat damage floor -/

/-- C1: for every player/monster stat combination and every d6 roll in
[1, 6], both computed damages of an attack exchange — the player's
`max(1, player.atk + d6 - monster.def)` and the monster's retaliation
`max(1, monster.atk + d6' - player.def)` — are at least 1. -/
theorem attack_damage_floor (patk pdef matk mdef d d' : Int)
    (hd : 1 ≤ d ∧ d ≤ 6) (hd' : 1 ≤ d' ∧ d' ≤ 6) :
    1 ≤ damageRoll patk d mdef ∧ 1 ≤ damageRoll matk d' pdef :=
  ⟨le_max_left _ _, le_max_left _ _⟩

theorem attack_damage_floor_witness :
    ((1 : Int) ≤ 3 ∧ (3 : Int) ≤ 6) ∧ ((1 : Int) ≤ 5 ∧ (5 : Int) ≤ 6) ∧
    (1 ≤ damageRoll 6 3 2 ∧ 1 ≤ damageRoll 4 5 10) :=
  ⟨by decide, by decide, attack_damage_floor 6 10 4 2 3 5 (by decide) (by decide)⟩

/-! ## C10: all commands ignore a dead player -/

/-- C10: when the player is dead (`hp <= 0`), each command entry point —
`tryMove`, `searchAround` and `resolvePlayerAttack` — returns the state
completely unchanged, the log included. -/
theorem dead_player_commands_are_noops (s : GameState) (dx dy trapRoll goldRoll : Int)
    (draws : Nat → Nat → Bool) (rollValue now retRoll : Int)
    (h : s.player.hp ≤ 0) :
    tryMove s dx dy trapRoll goldRoll = s ∧
    searchAround s draws = s ∧
    resolvePlayerAttack s rollValue now retRoll = s := by
  refine ⟨?_, ?_, ?_⟩
  · unfold tryMove; rw [if_pos (Or.inr h)]
  · unfold searchAround; rw [if_pos h]
  · unfold resolvePlayerAttack; rw [if_pos (Or.inr (Or.inr h))]

theorem dead_player_commands_are_noops_witness :
    deadState.player.hp ≤ 0 ∧
    (tryMove deadState 1 0 5 10 = deadState ∧
     searchAround deadState (fun _ _ => true) = deadState ∧
     resolvePlayerAttack deadState 3 0 4 = deadState) :=
  ⟨by decide,
   dead_player_commands_are_noops deadState 1 0 5 10 (fun _ _ => true) 3 0 4 (by decide)⟩

/-! ## C2: illegal moves are rejected without partial mutation -/

/-- A state in combat, in front of a wall. -/
def combatLockedState : GameState :=
  { gridSize := 2,
    tiles := [[mkTile .room, mkTile .wall], [mkTile .corridor, mkTile .room]],
    player := { x := 0, y := 0, facing := none, hp := 40, maxHP := 40, atk := 6,
                defense := 4, gold := 0 },
    monstersById := [], archetypesById := [],
    combat := { active := true, monsterId := some "goblin-0", lastHitAt := none },
    log := [], inventory := [] }

/-- The same situation with combat inactive. -/
def calmState : GameState :=
  { combatLockedState with
    combat := { active := false, monsterId := none, lastHitAt := none } }

/-- C2 counterexample: in a state where combat is active, a move into a
wall is rejected but NO message is appended to the log — the state comes
back unchanged, log included — contradicting the claim that for every
game state a rejected move appends a log message. -/
theorem tryMove_reject_silent_counterexample :
    (getT combatLockedState.tiles 1 0).type = .wall ∧
    tryMove combatLockedState 1 0 5 10 = combatLockedState ∧
    ¬∃ m, (tryMove combatLockedState 1 0 5 10).log =
      appendLogList combatLockedState.log m := by
  refine ⟨by decide, by decide, ?_⟩
  rintro ⟨m, hm⟩
  rw [show tryMove combatLockedState 1 0 5 10 = combatLockedState from by decide] at hm
  simp [appendLogList, combatLockedState, MAX_LOG] at hm

/-- C2 (amended): in a state where combat is not active and the player is
alive, a move whose destination is out of bounds, a wall, or an
unrevealed secret door is rejected: the result is exactly the input state
with one log message appended — player position and stats, the tile grid,
the monster registry and the combat state are unchanged. -/
theorem tryMove_rejections (s : GameState) (dx dy trapRoll goldRoll : Int)
    (hact : s.combat.active = false) (hhp : 0 < s.player.hp) :
    ((s.player.x + dx < 0 ∨ s.player.y + dy < 0 ∨
        (s.gridSize : Int) ≤ s.player.x + dx ∨ (s.gridSize : Int) ≤ s.player.y + dy) →
      tryMove s dx dy trapRoll goldRoll = appendLogState s "You cannot go that way.") ∧
    (¬(s.player.x + dx < 0 ∨ s.player.y + dy < 0 ∨
        (s.gridSize : Int) ≤ s.player.x + dx ∨ (s.gridSize : Int) ≤ s.player.y + dy) →
      (getT s.tiles (s.player.x + dx).toNat (s.player.y + dy).toNat).type = .wall →
      tryMove s dx dy trapRoll goldRoll = appendLogState s "A solid wall blocks the path.") ∧
    (¬(s.player.x + dx < 0 ∨ s.player.y + dy < 0 ∨
        (s.gridSize : Int) ≤ s.player.x + dx ∨ (s.gridSize : Int) ≤ s.player.y + dy) →
      (getT s.tiles (s.player.x + dx).toNat (s.player.y + dy).toNat).type = .secretDoor →
      (getT s.tiles (s.player.x + dx).toNat (s.player.y + dy).toNat).revealed = false →
      tryMove s dx dy trapRoll goldRoll = appendLogState s "You sense a dead end here.") := by
  have hguard : ¬(s.combat.active = true ∨ s.player.hp ≤ 0) := by
    rw [hact]; push_neg; exact ⟨Bool.false_ne_true, by omega⟩
  refine ⟨?_, ?_, ?_⟩
  · intro hoob
    unfold tryMove
    rw [if_neg hguard, if_pos hoob]
  · intro hin hwall
    unfold tryMove
    rw [if_neg hguard, if_neg hin, if_pos hwall]
  · intro hin hsd hrev
    have hnw : ¬(getT s.tiles (s.player.x + dx).toNat (s.player.y + dy).toNat).type
        = TileType.wall := by rw [hsd]; intro h; cases h
    unfold tryMove
    rw [if_neg hguard, if_neg hin, if_neg hnw, if_pos ⟨hsd, hrev⟩]

theorem tryMove_rejections_witness :
    calmState.combat.active = false ∧ 0 < calmState.player.hp ∧
    (calmState.player.x + 0 < 0 ∨ calmState.player.y + (-1) < 0 ∨
      (calmState.gridSize : Int) ≤ calmState.player.x + 0 ∨
      (calmState.gridSize : Int) ≤ calmState.player.y + (-1)) ∧
    tryMove calmState 0 (-1) 5 10 = appendLogState calmState "You cannot go that way." :=
  ⟨by decide, by decide, by decide,
   (tryMove_rejections calmState 0 (-1) 5 10 (by decide) (by decide)).1 (by decide)⟩

/-! ## Small state-projection lemmas -/

theorem appendLogState_tiles (s : GameState) (m : String) :
    (appendLogState s m).tiles = s.tiles := rfl

theorem appendLogState_player (s : GameState) (m : String) :
    (appendLogState s m).player = s.player := rfl

theorem appendLogState_monsters (s : GameState) (m : String) :
    (appendLogState s m).monstersById = s.monstersById := rfl

theorem appendLogState_combat (s : GameState) (m : String) :
    (appendLogState s m).combat = s.combat := rfl

theorem lookupStr_eraseStr_self {α : Type} (m : List (String × α)) (k : String) :
    lookupStr (eraseStr m k) k = none := by
  induction m with
  | nil => rfl
  | cons kv rest ih =>
    by_cases h : kv.1 == k
    · simpa [eraseStr, List.filter_cons, h] using ih
    · simp only [eraseStr, List.filter_cons, h, Bool.not_false, if_pos] at ih ⊢
      simpa [lookupStr, List.find?, h] using ih

/-! ## C7: monster retaliation and the missing hp floor -/

def retaliationArchetype : MonsterArchetype :=
  { id := "ogre", name := "Ogre", glyph := "O", maxHP := 20, atk := 9,
    defense := 0, gold := 5 }

def retaliationMonster : MonsterInstance :=
  { id := "ogre-0", archetypeId := "ogre", hp := 20, pos := (1, 1) }

/-- A nearly-dead player locked in combat with a hard-hitting monster. -/
def woundedState : GameState :=
  { gridSize := 2,
    tiles := [[mkTile .room, mkTile .room], [mkTile .room, mkTile .room]],
    player := { x := 0, y := 0, facing := none, hp := 1, maxHP := 40, atk := 6,
                defense := 0, gold := 0 },
    monstersById := [("ogre-0", retaliationMonster)],
    archetypesById := [("ogre", retaliationArchetype)],
    combat := { active := true, monsterId := some "ogre-0", lastHitAt := none },
    log := [], inventory := [] }

/-- C7 counterexample: a pre-state in which retaliation fires (combat
active, live monster, live player) where a roll of 6 leaves the player at
hp = -14: the subtraction is not floored at 0, so the claimed `hp ≥ 0`
fails. -/
theorem retaliation_negative_hp_counterexample :
    woundedState.combat.active = true ∧ 0 < woundedState.player.hp ∧
    (resolveMonsterAttack woundedState 6).player.hp = -14 ∧
    ¬(0 ≤ (resolveMonsterAttack woundedState 6).player.hp) :=
  ⟨rfl, by decide, by decide, by decide⟩

/-- C7 (amended): in the monster retaliation step, the damage
`max(1, monster.atk + d6' - player.def)` is subtracted from the player's
hp with no floor: the resulting hp is exactly `hp - damage`, which can be
negative. -/
theorem resolveMonsterAttack_hp (s : GameState) (rollValue : Int) (mid : String)
    (hmid : s.combat.monsterId = some mid) (hact : s.combat.active = true)
    (hne : mid ≠ "")
    (m : MonsterInstance) (hm : lookupStr s.monstersById mid = some m)
    (a : MonsterArchetype) (ha : lookupStr s.archetypesById m.archetypeId = some a) :
    (resolveMonsterAttack s rollValue).player.hp =
      s.player.hp - damageRoll a.atk rollValue s.player.defense := by
  unfold resolveMonsterAttack
  simp only [hmid, hm, ha]
  rw [if_neg (show ¬(s.combat.active = false ∨ mid = "") from by simp [hact, hne])]
  split <;> rfl

theorem resolveMonsterAttack_hp_witness :
    woundedState.combat.monsterId = some "ogre-0" ∧
    woundedState.combat.active = true ∧ ("ogre-0" : String) ≠ "" ∧
    lookupStr woundedState.monstersById "ogre-0" = some retaliationMonster ∧
    lookupStr woundedState.archetypesById retaliationMonster.archetypeId =
      some retaliationArchetype ∧
    (resolveMonsterAttack woundedState 6).player.hp =
      woundedState.player.hp -
        damageRoll retaliationArchetype.atk 6 woundedState.player.defense :=
  ⟨rfl, rfl, by decide, by decide, by decide,
   resolveMonsterAttack_hp woundedState 6 "ogre-0" rfl rfl (by decide)
     retaliationMonster (by decide) retaliationArchetype (by decide)⟩

/-! ## C6: the killing blow -/

def goblinArchetype : MonsterArchetype :=
  { id := "goblin", name := "Goblin", glyph := "g", maxHP := 10, atk := 3,
    defense := 1, gold := 5 }

def goblinInstance : MonsterInstance :=
  { id := "goblin-0", archetypeId := "goblin", hp := 9, pos := (1, 0) }

/-- A combat state one blow away from the monster's death. -/
def duelState : GameState :=
  { gridSize := 2,
    tiles := [[mkTile .room, { mkTile .room with monsterId := some "goblin-0" }],
              [mkTile .room, mkTile .room]],
    player := { x := 0, y := 0, facing := none, hp := 40, maxHP := 40, atk := 6,
                defense := 4, gold := 0 },
    monstersById := [("goblin-0", goblinInstance)],
    archetypesById := [("goblin", goblinArchetype)],
    combat := { active := true, monsterId := some "goblin-0", lastHitAt := none },
    log := [], inventory := [] }

/-- C6: when an attack is resolved with combat active, a live monster,
and computed damage at least the monster's hp, the monster dies: its id
is gone from the registry, the tile at its position has no `monsterId`,
combat is reset to `{active: false, monsterId: null}`, the player gains
exactly the archetype's gold, and the player's hp is unchanged (no
retaliation on the killing blow). -/
theorem killing_blow (s : GameState) (rollValue now retRoll : Int) (mid : String)
    (hact : s.combat.active = true) (hmid : s.combat.monsterId = some mid)
    (hne : mid ≠ "") (hhp : 0 < s.player.hp)
    (m : MonsterInstance) (hm : lookupStr s.monstersById mid = some m)
    (a : MonsterArchetype) (ha : lookupStr s.archetypesById m.archetypeId = some a)
    (hkill : m.hp ≤ damageRoll s.player.atk rollValue a.defense)
    (hrect : Rect s.tiles) (hposx : m.pos.1 < gridCols s.tiles)
    (hposy : m.pos.2 < gridRows s.tiles) :
    lookupStr (resolvePlayerAttack s rollValue now retRoll).monstersById m.id = none ∧
    (getT (resolvePlayerAttack s rollValue now retRoll).tiles m.pos.1 m.pos.2).monsterId
      = none ∧
    (resolvePlayerAttack s rollValue now retRoll).combat =
      { active := false, monsterId := none, lastHitAt := none } ∧
    (resolvePlayerAttack s rollValue now retRoll).player =
      { s.player with gold := s.player.gold + a.gold } := by
  have hguard : ¬(s.combat.active = false ∨ strFalsy s.combat.monsterId = true ∨
      s.player.hp ≤ 0) := by
    push_neg
    refine ⟨by simp [hact], ?_, by omega⟩
    rw [hmid]
    simpa [strFalsy] using hne
  have hdead : m.hp - damageRoll s.player.atk rollValue a.defense ≤ 0 := by omega
  unfold resolvePlayerAttack
  rw [if_neg hguard]
  simp only [hmid, hm, ha]
  rw [if_pos hdead]
  refine ⟨lookupStr_eraseStr_self _ _, ?_, rfl, rfl⟩
  rw [show ∀ m1 m2, ((appendLogState (appendLogState s m1) m2).tiles) = s.tiles
    from fun _ _ => rfl]
  rw [getT_updateTiles]
  rw [if_pos ⟨rfl, rfl, hposy, by rw [hrect m.pos.2 hposy]; exact hposx⟩]

theorem killing_blow_witness :
    duelState.combat.active = true ∧
    duelState.combat.monsterId = some "goblin-0" ∧ ("goblin-0" : String) ≠ "" ∧
    0 < duelState.player.hp ∧
    lookupStr duelState.monstersById "goblin-0" = some goblinInstance ∧
    lookupStr duelState.archetypesById goblinInstance.archetypeId =
      some goblinArchetype ∧
    goblinInstance.hp ≤ damageRoll duelState.player.atk 4 goblinArchetype.defense ∧
    Rect duelState.tiles ∧
    goblinInstance.pos.1 < gridCols duelState.tiles ∧
    goblinInstance.pos.2 < gridRows duelState.tiles ∧
    (lookupStr (resolvePlayerAttack duelState 4 0 3).monstersById goblinInstance.id
        = none ∧
      (getT (resolvePlayerAttack duelState 4 0 3).tiles goblinInstance.pos.1
        goblinInstance.pos.2).monsterId = none ∧
      (resolvePlayerAttack duelState 4 0 3).combat =
        { active := false, monsterId := none, lastHitAt := none } ∧
      (resolvePlayerAttack duelState 4 0 3).player =
        { duelState.player with gold := duelState.player.gold + goblinArchetype.gold }) :=
  ⟨rfl, rfl, by decide, by decide, by decide, by decide, by decide, by decide,
   by decide, by decide,
   killing_blow duelState 4 0 3 "goblin-0" rfl rfl (by decide) (by decide)
     goblinInstance (by decide) goblinArchetype (by decide) (by decide) (by decide)
     (by decide) (by decide)⟩

/-! ## C3: visibility invariants -/

theorem getT_oob (g : Grid) (x y : Nat)
    (h : ¬(y < g.length ∧ x < (g.getD y []).length)) :
    getT g x y = defaultTile := by
  unfold getT
  rcases Nat.lt_or_ge y g.length with hy | hy
  · rcases Nat.lt_or_ge x (g.getD y []).length with hx | hx
    · exact absurd ⟨hy, hx⟩ h
    · exact List.getD_eq_default _ _ hx
  · rw [List.getD_eq_default _ _ hy]
    simp

theorem rowLen_mapGridIdx (f : Nat → Nat → Tile → Tile) (g : Grid) (y : Nat) :
    ((mapGridIdx f g).getD y []).length = (g.getD y []).length := by
  suffices h : ∀ k, ((mapGridFrom f k g).getD y []).length = (g.getD y []).length from
    h 0
  intro k
  induction g generalizing k y with
  | nil => simp [mapGridFrom]
  | cons row rest ih =>
    cases y with
    | zero => simp [mapGridFrom, length_mapRowFrom]
    | succ y => simpa [mapGridFrom] using ih y (k + 1)

theorem gridCols_getD (g : Grid) : gridCols g = (g.getD 0 []).length := by
  cases g <;> rfl

theorem gridRows_mapGridIdx (f : Nat → Nat → Tile → Tile) (g : Grid) :
    gridRows (mapGridIdx f g) = gridRows g := length_mapGridFrom f 0 g

theorem gridCols_mapGridIdx (f : Nat → Nat → Tile → Tile) (g : Grid) :
    gridCols (mapGridIdx f g) = gridCols g := by
  rw [gridCols_getD, gridCols_getD, rowLen_mapGridIdx]

theorem isOpaque_congr {t u : Tile} (hty : t.type = u.type)
    (hrv : t.revealed = u.revealed) : isOpaque t = isOpaque u := by
  simp [isOpaque, hty, hrv]

theorem losWalk_congr (g1 g2 : Grid)
    (hop : ∀ a b : Int, isOpaque (getTI g1 a b) = isOpaque (getTI g2 a b))
    (fx fy x1 y1 dx dy sx sy : Int) (fuel : Nat) (x0 y0 err : Int) :
    losWalk g1 fx fy x1 y1 dx dy sx sy fuel x0 y0 err =
      losWalk g2 fx fy x1 y1 dx dy sx sy fuel x0 y0 err := by
  induction fuel generalizing x0 y0 err with
  | zero => rfl
  | succ fuel ih =>
    simp only [losWalk, hop]
    split
    · rfl
    · split
      · rfl
      · exact ih _ _ _

theorem hasLineOfSight_congr (g1 g2 : Grid)
    (hop : ∀ a b : Int, isOpaque (getTI g1 a b) = isOpaque (getTI g2 a b))
    (f t : Int × Int) :
    hasLineOfSight g1 f t = hasLineOfSight g2 f t := by
  unfold hasLineOfSight
  exact losWalk_congr g1 g2 hop _ _ _ _ _ _ _ _ _ _ _ _

/-- Overwrite every tile's `visible` flag by an arbitrary assignment:
the vehicle for stating that `computeVisibility` ignores the input
`visible` flags. -/
def overrideVisible (g : Grid) (vf : Nat → Nat → Bool) : Grid :=
  mapGridIdx (fun x y t => { t with visible := vf x y }) g

theorem isOpaque_overrideVisible (g : Grid) (vf : Nat → Nat → Bool) (a b : Int) :
    isOpaque (getTI (overrideVisible g vf) a b) = isOpaque (getTI g a b) := by
  unfold getTI
  split
  · unfold overrideVisible
    rw [getT_mapGridIdx]
    split
    · rfl
    · rw [getT_oob _ _ _ (by assumption)]
  · rfl

theorem visCond_overrideVisible (g : Grid) (vf : Nat → Nat → Bool)
    (px py radius x y : Nat) :
    visCond (overrideVisible g vf) px py radius x y = visCond g px py radius x y := by
  unfold visCond
  rw [hasLineOfSight_congr _ _ (isOpaque_overrideVisible g vf)]
  rw [show gridRows (overrideVisible g vf) = gridRows g from
      gridRows_mapGridIdx _ g,
    show gridCols (overrideVisible g vf) = gridCols g from
      gridCols_mapGridIdx _ g]

/-- C3: `computeVisibility` (a) marks every visible tile explored,
(b) keeps every previously explored tile explored — `explored` is
monotone over any sequence of calls — and (c) recomputes `visible` from
scratch: the output `visible` flags are the same whatever the input
`visible` flags were, so no stale `visible` values can persist. -/
theorem computeVisibility_invariants (g : Grid) (p : Pos) (radius : Nat)
    (vf : Nat → Nat → Bool) (x y : Nat) :
    ((getT (computeVisibility g p radius) x y).visible = true →
      (getT (computeVisibility g p radius) x y).explored = true) ∧
    ((getT g x y).explored = true →
      (getT (computeVisibility g p radius) x y).explored = true) ∧
    ((getT (computeVisibility (overrideVisible g vf) p radius) x y).visible =
      (getT (computeVisibility g p radius) x y).visible) := by
  unfold computeVisibility
  rw [getT_mapGridIdx, getT_mapGridIdx]
  refine ⟨?_, ?_, ?_⟩
  · split
    · split <;> simp
    · simp [defaultTile]
  · intro hex
    split
    · split
      · rfl
      · exact hex
    · rw [getT_oob g x y (by assumption)] at hex
      exact absurd hex (by simp [defaultTile])
  · rw [visCond_overrideVisible]
    have hrows : (overrideVisible g vf).length = g.length := length_mapGridFrom _ 0 g
    have hlen : (((overrideVisible g vf)).getD y []).length = ((g.getD y []).length) :=
      rowLen_mapGridIdx _ g y
    rw [hrows, hlen]
    split
    · split <;> rfl
    · rfl

/-- A grid with one already-explored tile, for exercising the
visibility invariants concretely. -/
def visGrid : Grid :=
  [[{ mkTile .room with explored := true }, mkTile .room],
   [mkTile .room, mkTile .wall]]

theorem computeVisibility_invariants_witness :
    (getT (computeVisibility visGrid (0, 0) 4) 1 0).visible = true ∧
    (getT (computeVisibility visGrid (0, 0) 4) 1 0).explored = true ∧
    (getT visGrid 0 0).explored = true ∧
    (getT (computeVisibility visGrid (0, 0) 4) 0 0).explored = true ∧
    ((getT (computeVisibility (overrideVisible visGrid (fun _ _ => true)) (0, 0) 4) 1 1).visible =
      (getT (computeVisibility visGrid (0, 0) 4) 1 1).visible) :=
  ⟨by decide,
   (computeVisibility_invariants visGrid (0, 0) 4 (fun _ _ => true) 1 0).1 (by decide),
   by decide,
   (computeVisibility_invariants visGrid (0, 0) 4 (fun _ _ => true) 0 0).2.1 (by decide),
   (computeVisibility_invariants visGrid (0, 0) 4 (fun _ _ => true) 1 1).2.2⟩

/-! ## C9: line-of-sight symmetry -/

/-- A 3 × 2 grid with a wall at (1,0) only. -/
def losGrid : Grid :=
  [[mkTile .room, mkTile .wall, mkTile .room],
   [mkTile .room, mkTile .room, mkTile .room]]

/-- C9 counterexample: between the in-bounds positions (0,0) and (2,1)
of `losGrid` the two directions disagree — the Bresenham trace from
(0,0) passes through the wall at (1,0), the trace from (2,1) passes
through the open tile (1,1). -/
theorem hasLineOfSight_asymmetric_counterexample :
    hasLineOfSight losGrid (0, 0) (2, 1) = false ∧
    hasLineOfSight losGrid (2, 1) (0, 0) = true ∧
    ¬(hasLineOfSight losGrid (0, 0) (2, 1) = hasLineOfSight losGrid (2, 1) (0, 0)) :=
  ⟨by decide, by decide, by decide⟩

theorem bool_eq_of_iff {b c : Bool} (h : b = true ↔ c = true) : b = c := by
  cases b <;> cases c <;> simp_all


/-- One iteration of the walk along a horizontal line (`dy = 0`, error
term steady at `dx > 0`): step one column, keep the row. -/
theorem losWalk_step_horiz (g : Grid) (fx fy x1 : Int) (dx sx sy : Int)
    (fuel : Nat) (x0 : Int) (hdx : 0 < dx) (hne : x0 ≠ x1) :
    losWalk g fx fy x1 fy dx 0 sx sy (fuel + 1) x0 fy dx =
      (if ¬(x0 = fx) ∧ isOpaque (getTI g x0 fy) = true then false
       else losWalk g fx fy x1 fy dx 0 sx sy fuel (x0 + sx) fy dx) := by
  simp only [losWalk, and_true]
  rw [if_neg hne]
  have h1 : (2 * dx > -(0 : Int)) := by omega
  have h2 : ¬(2 * dx < dx) := by omega
  have e1 : (if (2 * dx > -(0 : Int)) then dx - 0 else dx) = dx := by
    rw [if_pos h1, sub_zero]
  have e2 : (if (2 * dx > -(0 : Int)) then x0 + sx else x0) = x0 + sx := if_pos h1
  have e3 : ∀ z w : Int, (if (2 * dx < dx) then z else w) = w := fun z w => if_neg h2
  rw [e3, e3, e2, e1]

/-- One iteration of the walk along a vertical line (`dx = 0`, error
term steady at `-dy < 0`): step one row, keep the column. -/
theorem losWalk_step_vert (g : Grid) (fx fy y1 : Int) (dy sx sy : Int)
    (fuel : Nat) (y0 : Int) (hdy : 0 < dy) (hne : y0 ≠ y1) :
    losWalk g fx fy fx y1 0 dy sx sy (fuel + 1) fx y0 (-dy) =
      (if ¬(y0 = fy) ∧ isOpaque (getTI g fx y0) = true then false
       else losWalk g fx fy fx y1 0 dy sx sy fuel fx (y0 + sy) (-dy)) := by
  simp only [losWalk, true_and]
  rw [if_neg hne]
  have h1 : ¬(2 * -dy > -dy) := by omega
  have h2 : (2 * -dy < (0 : Int)) := by omega
  have e1 : (if (2 * -dy > -dy) then -dy - dy else -dy) = -dy := if_neg h1
  have e2 : (if (2 * -dy > -dy) then fx + sx else fx) = fx := if_neg h1
  have e3 : ∀ z w : Int, (if (2 * -dy < (0 : Int)) then z else w) = z :=
    fun z w => if_pos h2
  rw [e3, e3, e2, e1, add_zero]

/-- One iteration of the walk along an exact diagonal
(`dx = dy = d > 0`, error term steady at `0`): step one column and one
row. -/
theorem losWalk_step_diag (g : Grid) (fx fy x1 y1 : Int) (d sx sy : Int)
    (fuel : Nat) (x0 y0 : Int) (hd : 0 < d) (hne : ¬(x0 = x1 ∧ y0 = y1)) :
    losWalk g fx fy x1 y1 d d sx sy (fuel + 1) x0 y0 0 =
      (if ¬(x0 = fx ∧ y0 = fy) ∧ isOpaque (getTI g x0 y0) = true then false
       else losWalk g fx fy x1 y1 d d sx sy fuel (x0 + sx) (y0 + sy) 0) := by
  simp only [losWalk]
  rw [if_neg hne]
  have h1 : (2 * (0 : Int) > -d) := by omega
  have h2 : (2 * (0 : Int) < d) := by omega
  have e1 : (if (2 * (0 : Int) > -d) then (0 : Int) - d else 0) = -d := by
    rw [if_pos h1, zero_sub]
  have e2 : (if (2 * (0 : Int) > -d) then x0 + sx else x0) = x0 + sx := if_pos h1
  have e3 : ∀ z w : Int, (if (2 * (0 : Int) < d) then z else w) = z :=
    fun z w => if_pos h2
  rw [e3, e3, e2, e1, neg_add_cancel]

/-- The horizontal walk succeeds iff no cell strictly between the
current column and the target column (other than the start cell) is
opaque. -/
theorem losWalk_horiz (g : Grid) (fx fy x1 : Int) (dx sx sy : Int)
    (hdx : 0 < dx) (hsx : sx = 1 ∨ sx = -1) :
    ∀ (fuel : Nat) (x0 : Int), 0 ≤ sx * (x1 - x0) → (sx * (x1 - x0)).toNat < fuel →
    (losWalk g fx fy x1 fy dx 0 sx sy fuel x0 fy dx = true ↔
      ∀ x : Int, x ≠ fx → 0 ≤ sx * (x - x0) → 0 < sx * (x1 - x) →
        isOpaque (getTI g x fy) = false) := by
  intro fuel
  induction fuel with
  | zero => intro x0 h0 h1; omega
  | succ fuel ih =>
    intro x0 h0 h1
    by_cases hend : x0 = x1
    · subst hend
      rw [show losWalk g fx fy x0 fy dx 0 sx sy (fuel + 1) x0 fy dx = true from by
        simp [losWalk]]
      simp only [true_iff]
      intro x hx hge hlt
      exfalso
      rcases hsx with h | h <;> subst h <;> omega
    · rw [losWalk_step_horiz g fx fy x1 dx sx sy fuel x0 hdx hend]
      have hpos : 0 < sx * (x1 - x0) := by
        rcases hsx with h | h <;> subst h <;> omega
      have hih := ih (x0 + sx)
        (by rcases hsx with h | h <;> subst h <;> omega)
        (by rcases hsx with h | h <;> subst h <;> omega)
      split
      · rename_i hop
        simp only [Bool.false_eq_true, false_iff]
        intro hall
        have hcell := hall x0 hop.1 (by simp) hpos
        rw [hcell] at hop
        exact Bool.false_ne_true hop.2
      · rename_i hop
        rw [hih]
        constructor
        · intro hall x hx hge hlt
          by_cases hxx : x = x0
          · subst hxx
            rcases Decidable.em (isOpaque (getTI g x fy) = true) with ht | ht
            · exact absurd ⟨hx, ht⟩ hop
            · simpa using ht
          · refine hall x hx ?_ hlt
            rcases hsx with h | h <;> subst h <;> omega
        · intro hall x hx hge hlt
          refine hall x hx ?_ hlt
          rcases hsx with h | h <;> subst h <;> omega

/-- The vertical walk succeeds iff no cell strictly between the current
row and the target row (other than the start cell) is opaque. -/
theorem losWalk_vert (g : Grid) (fx fy y1 : Int) (dy sx sy : Int)
    (hdy : 0 < dy) (hsy : sy = 1 ∨ sy = -1) :
    ∀ (fuel : Nat) (y0 : Int), 0 ≤ sy * (y1 - y0) → (sy * (y1 - y0)).toNat < fuel →
    (losWalk g fx fy fx y1 0 dy sx sy fuel fx y0 (-dy) = true ↔
      ∀ y : Int, y ≠ fy → 0 ≤ sy * (y - y0) → 0 < sy * (y1 - y) →
        isOpaque (getTI g fx y) = false) := by
  intro fuel
  induction fuel with
  | zero => intro y0 h0 h1; omega
  | succ fuel ih =>
    intro y0 h0 h1
    by_cases hend : y0 = y1
    · subst hend
      rw [show losWalk g fx fy fx y0 0 dy sx sy (fuel + 1) fx y0 (-dy) = true from by
        simp [losWalk]]
      simp only [true_iff]
      intro y hy hge hlt
      exfalso
      rcases hsy with h | h <;> subst h <;> omega
    · rw [losWalk_step_vert g fx fy y1 dy sx sy fuel y0 hdy hend]
      have hpos : 0 < sy * (y1 - y0) := by
        rcases hsy with h | h <;> subst h <;> omega
      have hih := ih (y0 + sy)
        (by rcases hsy with h | h <;> subst h <;> omega)
        (by rcases hsy with h | h <;> subst h <;> omega)
      split
      · rename_i hop
        simp only [Bool.false_eq_true, false_iff]
        intro hall
        have hcell := hall y0 hop.1 (by simp) hpos
        rw [hcell] at hop
        exact Bool.false_ne_true hop.2
      · rename_i hop
        rw [hih]
        constructor
        · intro hall y hy hge hlt
          by_cases hyy : y = y0
          · subst hyy
            rcases Decidable.em (isOpaque (getTI g fx y) = true) with ht | ht
            · exact absurd ⟨hy, ht⟩ hop
            · simpa using ht
          · refine hall y hy ?_ hlt
            rcases hsy with h | h <;> subst h <;> omega
        · intro hall y hy hge hlt
          refine hall y hy ?_ hlt
          rcases hsy with h | h <;> subst h <;> omega

/-- The diagonal walk succeeds iff no cell strictly between the current
position and the target (other than the start cell) is opaque. -/
theorem losWalk_diag (g : Grid) (fx fy x1 y1 : Int) (d sx sy : Int)
    (hd : 0 < d) (hsx : sx = 1 ∨ sx = -1) (hsy : sy = 1 ∨ sy = -1) :
    ∀ (fuel : Nat) (x0 y0 : Int), 0 ≤ sx * (x1 - x0) →
    sx * (x1 - x0) = sy * (y1 - y0) → (sx * (x1 - x0)).toNat < fuel →
    (losWalk g fx fy x1 y1 d d sx sy fuel x0 y0 0 = true ↔
      ∀ k : Int, 0 ≤ k → k < sx * (x1 - x0) →
        ¬(x0 + k * sx = fx ∧ y0 + k * sy = fy) →
        isOpaque (getTI g (x0 + k * sx) (y0 + k * sy)) = false) := by
  intro fuel
  induction fuel with
  | zero => intro x0 y0 h0 heq h1; omega
  | succ fuel ih =>
    intro x0 y0 h0 heq h1
    by_cases hend : x0 = x1 ∧ y0 = y1
    · obtain ⟨hex, hey⟩ := hend
      subst hex; subst hey
      rw [show losWalk g fx fy x0 y0 d d sx sy (fuel + 1) x0 y0 0 = true from by
        simp [losWalk]]
      simp only [true_iff]
      intro k hk hklt hne
      exfalso
      rcases hsx with h | h <;> subst h <;> omega
    · rw [losWalk_step_diag g fx fy x1 y1 d sx sy fuel x0 y0 hd hend]
      have hpos : 0 < sx * (x1 - x0) := by
        rcases Decidable.em (x0 = x1) with hx | hx
        · exfalso
          apply hend
          refine ⟨hx, ?_⟩
          subst hx
          rcases hsy with h | h <;> subst h <;>
            rcases hsx with h2 | h2 <;> subst h2 <;> omega
        · rcases hsx with h | h <;> subst h <;> omega
      have hih := ih (x0 + sx) (y0 + sy)
        (by rcases hsx with h | h <;> subst h <;> omega)
        (by rcases hsx with h | h <;> subst h <;>
          rcases hsy with h2 | h2 <;> subst h2 <;> omega)
        (by rcases hsx with h | h <;> subst h <;> omega)
      split
      · rename_i hop
        simp only [Bool.false_eq_true, false_iff]
        intro hall
        have hcell := hall 0 le_rfl hpos
          (by simpa using hop.1)
        simp only [zero_mul, add_zero] at hcell
        rw [hcell] at hop
        exact Bool.false_ne_true hop.2
      · rename_i hop
        rw [hih]
        constructor
        · intro hall k hk hklt hne
          by_cases hk0 : k = 0
          · subst hk0
            simp only [zero_mul, add_zero] at hne ⊢
            rcases Decidable.em (isOpaque (getTI g x0 y0) = true) with ht | ht
            · exact absurd ⟨hne, ht⟩ hop
            · simpa using ht
          · have hcell := hall (k - 1) (by omega)
              (by rcases hsx with h | h <;> subst h <;> omega)
              (by
                intro hc
                apply hne
                constructor
                · rcases hsx with h | h <;> subst h <;> omega
                · rcases hsy with h | h <;> subst h <;> omega)
            rw [show x0 + sx + (k - 1) * sx = x0 + k * sx from by
                rcases hsx with h | h <;> subst h <;> ring,
              show y0 + sy + (k - 1) * sy = y0 + k * sy from by
                rcases hsy with h | h <;> subst h <;> ring] at hcell
            exact hcell
        · intro hall k hk hklt hne
          have hcell := hall (k + 1) (by omega)
            (by rcases hsx with h | h <;> subst h <;> omega)
            (by
              intro hc
              apply hne
              constructor
              · rcases hsx with h | h <;> subst h <;> omega
              · rcases hsy with h | h <;> subst h <;> omega)
          rw [show x0 + (k + 1) * sx = x0 + sx + k * sx from by
              rcases hsx with h | h <;> subst h <;> ring,
            show y0 + (k + 1) * sy = y0 + sy + k * sy from by
              rcases hsy with h | h <;> subst h <;> ring] at hcell
          exact hcell

/-- The horizontal walk gives the same answer traced from either end. -/
theorem losWalk_horiz_symm (g : Grid) (ax fy bx : Int) (dx sx sx' sy1 sy2 : Int)
    (fuel1 fuel2 : Nat) (hdx : 0 < dx) (hsx : sx = 1 ∨ sx = -1) (hsx' : sx' = -sx)
    (hbx : bx - ax = dx * sx) (hf1 : dx.toNat < fuel1) (hf2 : dx.toNat < fuel2) :
    losWalk g ax fy bx fy dx 0 sx sy1 fuel1 ax fy dx =
      losWalk g bx fy ax fy dx 0 sx' sy2 fuel2 bx fy dx := by
  subst hsx'
  apply bool_eq_of_iff
  rcases hsx with rfl | rfl <;>
  · rw [losWalk_horiz g ax fy bx dx _ sy1 hdx (by simp) fuel1 ax (by omega) (by omega),
      losWalk_horiz g bx fy ax dx _ sy2 hdx (by simp) fuel2 bx (by omega) (by omega)]
    constructor
    · intro hall x hx hge hlt
      exact hall x (by omega) (by omega) (by omega)
    · intro hall x hx hge hlt
      exact hall x (by omega) (by omega) (by omega)

/-- The vertical walk gives the same answer traced from either end. -/
theorem losWalk_vert_symm (g : Grid) (fx ay byy : Int) (dy sy sy' sx1 sx2 : Int)
    (fuel1 fuel2 : Nat) (hdy : 0 < dy) (hsy : sy = 1 ∨ sy = -1) (hsy' : sy' = -sy)
    (hby : byy - ay = dy * sy) (hf1 : dy.toNat < fuel1) (hf2 : dy.toNat < fuel2) :
    losWalk g fx ay fx byy 0 dy sx1 sy fuel1 fx ay (-dy) =
      losWalk g fx byy fx ay 0 dy sx2 sy' fuel2 fx byy (-dy) := by
  subst hsy'
  apply bool_eq_of_iff
  rcases hsy with rfl | rfl <;>
  · rw [losWalk_vert g fx ay byy dy sx1 _ hdy (by simp) fuel1 ay (by omega) (by omega),
      losWalk_vert g fx byy ay dy sx2 _ hdy (by simp) fuel2 byy (by omega) (by omega)]
    constructor
    · intro hall y hy hge hlt
      exact hall y (by omega) (by omega) (by omega)
    · intro hall y hy hge hlt
      exact hall y (by omega) (by omega) (by omega)

/-- The diagonal walk gives the same answer traced from either end. -/
theorem losWalk_diag_symm (g : Grid) (ax ay bx byy : Int) (d sx sy sx' sy' : Int)
    (fuel1 fuel2 : Nat) (hd : 0 < d) (hsx : sx = 1 ∨ sx = -1)
    (hsy : sy = 1 ∨ sy = -1) (hsx' : sx' = -sx) (hsy' : sy' = -sy)
    (hbx : bx - ax = d * sx) (hby : byy - ay = d * sy)
    (hf1 : d.toNat < fuel1) (hf2 : d.toNat < fuel2) :
    losWalk g ax ay bx byy d d sx sy fuel1 ax ay 0 =
      losWalk g bx byy ax ay d d sx' sy' fuel2 bx byy 0 := by
  subst hsx'
  subst hsy'
  apply bool_eq_of_iff
  rcases hsx with rfl | rfl <;> rcases hsy with rfl | rfl <;>
  · rw [losWalk_diag g ax ay bx byy d _ _ hd (by simp) (by simp) fuel1 ax ay
        (by omega) (by omega) (by omega),
      losWalk_diag g bx byy ax ay d _ _ hd (by simp) (by simp) fuel2 bx byy
        (by omega) (by omega) (by omega)]
    constructor
    · intro hall k hk hklt hne
      have hk0 : k ≠ 0 := by
        intro hc
        subst hc
        exact hne (by constructor <;> omega)
      have hcell := hall (d - k) (by omega) (by omega) (by
        intro hc
        obtain ⟨hc1, hc2⟩ := hc
        omega)
      convert hcell using 3 <;> omega
    · intro hall k hk hklt hne
      have hk0 : k ≠ 0 := by
        intro hc
        subst hc
        exact hne (by constructor <;> omega)
      have hcell := hall (d - k) (by omega) (by omega) (by
        intro hc
        obtain ⟨hc1, hc2⟩ := hc
        omega)
      convert hcell using 3 <;> omega

/-- C9 (amended): the line-of-sight test is symmetric for every pair of
in-bounds positions that share a row, share a column, or lie on an exact
diagonal; for other pairs the two Bresenham traces can pass through
different cells and the results may differ (see the counterexample). -/
theorem hasLineOfSight_symm_aligned (g : Grid) (a b : Int × Int)
    (h : a.1 = b.1 ∨ a.2 = b.2 ∨ |b.1 - a.1| = |b.2 - a.2|) :
    hasLineOfSight g a b = hasLineOfSight g b a := by
  obtain ⟨ax, ay⟩ := a
  obtain ⟨bx, byy⟩ := b
  simp only at h
  by_cases hxe : ax = bx
  · subst hxe
    by_cases hye : ay = byy
    · subst hye; rfl
    · simp only [hasLineOfSight, sub_self, abs_zero, zero_sub, zero_add,
        lt_self_iff_false, if_false]
      rcases lt_or_gt_of_ne hye with hlt | hlt
      · rw [show |byy - ay| = byy - ay from abs_of_pos (by omega),
          show |ay - byy| = byy - ay from by
            rw [abs_sub_comm]; exact abs_of_pos (by omega),
          if_pos hlt, if_neg (show ¬(byy < ay) from by omega)]
        exact losWalk_vert_symm g ax ay byy (byy - ay) 1 (-1) (-1) (-1) _ _
          (by omega) (Or.inl rfl) (by norm_num) (by ring) (by omega) (by omega)
      · rw [show |byy - ay| = ay - byy from by
            rw [abs_sub_comm]; exact abs_of_pos (by omega),
          show |ay - byy| = ay - byy from abs_of_pos (by omega),
          if_neg (show ¬(ay < byy) from by omega), if_pos hlt]
        exact (losWalk_vert_symm g ax byy ay (ay - byy) 1 (-1) (-1) (-1) _ _
          (by omega) (Or.inl rfl) (by norm_num) (by ring) (by omega) (by omega)).symm
  · by_cases hye : ay = byy
    · subst hye
      simp only [hasLineOfSight, sub_self, abs_zero, add_zero, sub_zero,
        lt_self_iff_false, if_false]
      rcases lt_or_gt_of_ne hxe with hlt | hlt
      · rw [show |bx - ax| = bx - ax from abs_of_pos (by omega),
          show |ax - bx| = bx - ax from by
            rw [abs_sub_comm]; exact abs_of_pos (by omega),
          if_pos hlt, if_neg (show ¬(bx < ax) from by omega)]
        exact losWalk_horiz_symm g ax ay bx (bx - ax) 1 (-1) (-1) (-1) _ _
          (by omega) (Or.inl rfl) (by norm_num) (by ring) (by omega) (by omega)
      · rw [show |bx - ax| = ax - bx from by
            rw [abs_sub_comm]; exact abs_of_pos (by omega),
          show |ax - bx| = ax - bx from abs_of_pos (by omega),
          if_neg (show ¬(ax < bx) from by omega), if_pos hlt]
        exact (losWalk_horiz_symm g bx ay ax (ax - bx) 1 (-1) (-1) (-1) _ _
          (by omega) (Or.inl rfl) (by norm_num) (by ring) (by omega) (by omega)).symm
    · have habs : |bx - ax| = |byy - ay| := by tauto
      simp only [hasLineOfSight]
      rcases lt_or_gt_of_ne hxe with hx | hx <;> rcases lt_or_gt_of_ne hye with hy | hy
      · have heq : byy - ay = bx - ax := by
          rw [abs_of_pos (by omega : (0:Int) < bx - ax),
            abs_of_pos (by omega : (0:Int) < byy - ay)] at habs
          omega
        rw [show |bx - ax| = bx - ax from abs_of_pos (by omega),
          show |byy - ay| = byy - ay from abs_of_pos (by omega),
          show |ax - bx| = bx - ax from by
            rw [abs_sub_comm]; exact abs_of_pos (by omega),
          show |ay - byy| = byy - ay from by
            rw [abs_sub_comm]; exact abs_of_pos (by omega),
          heq, sub_self, if_pos hx, if_pos hy,
          if_neg (show ¬(bx < ax) from by omega),
          if_neg (show ¬(byy < ay) from by omega)]
        exact losWalk_diag_symm g ax ay bx byy (bx - ax) 1 1 (-1) (-1) _ _
          (by omega) (Or.inl rfl) (Or.inl rfl) (by norm_num) (by norm_num)
          (by ring) (by omega) (by omega) (by omega)
      · have heq : ay - byy = bx - ax := by
          rw [abs_of_pos (by omega : (0:Int) < bx - ax),
            show |byy - ay| = ay - byy from by
              rw [abs_sub_comm]; exact abs_of_pos (by omega)] at habs
          omega
        rw [show |bx - ax| = bx - ax from abs_of_pos (by omega),
          show |byy - ay| = ay - byy from by
            rw [abs_sub_comm]; exact abs_of_pos (by omega),
          show |ax - bx| = bx - ax from by
            rw [abs_sub_comm]; exact abs_of_pos (by omega),
          show |ay - byy| = ay - byy from abs_of_pos (by omega),
          heq, sub_self, if_pos hx, if_neg (show ¬(ay < byy) from by omega),
          if_neg (show ¬(bx < ax) from by omega), if_pos hy]
        exact losWalk_diag_symm g ax ay bx byy (bx - ax) 1 (-1) (-1) 1 _ _
          (by omega) (Or.inl rfl) (Or.inr rfl) (by norm_num) (by norm_num)
          (by ring) (by omega) (by omega) (by omega)
      · have heq : byy - ay = ax - bx := by
          rw [show |bx - ax| = ax - bx from by
              rw [abs_sub_comm]; exact abs_of_pos (by omega),
            abs_of_pos (by omega : (0:Int) < byy - ay)] at habs
          omega
        rw [show |bx - ax| = ax - bx from by
            rw [abs_sub_comm]; exact abs_of_pos (by omega),
          show |byy - ay| = byy - ay from abs_of_pos (by omega),
          show |ax - bx| = ax - bx from abs_of_pos (by omega),
          show |ay - byy| = byy - ay from by
            rw [abs_sub_comm]; exact abs_of_pos (by omega),
          heq, sub_self, if_neg (show ¬(ax < bx) from by omega), if_pos hy,
          if_pos hx, if_neg (show ¬(byy < ay) from by omega)]
        exact (losWalk_diag_symm g bx byy ax ay (ax - bx) 1 (-1) (-1) 1 _ _
          (by omega) (Or.inl rfl) (Or.inr rfl) (by norm_num) (by norm_num)
          (by ring) (by omega) (by omega) (by omega)).symm
      · have heq : ay - byy = ax - bx := by
          rw [show |bx - ax| = ax - bx from by
              rw [abs_sub_comm]; exact abs_of_pos (by omega),
            show |byy - ay| = ay - byy from by
              rw [abs_sub_comm]; exact abs_of_pos (by omega)] at habs
          omega
        rw [show |bx - ax| = ax - bx from by
            rw [abs_sub_comm]; exact abs_of_pos (by omega),
          show |byy - ay| = ay - byy from by
            rw [abs_sub_comm]; exact abs_of_pos (by omega),
          show |ax - bx| = ax - bx from abs_of_pos (by omega),
          show |ay - byy| = ay - byy from abs_of_pos (by omega),
          heq, sub_self, if_neg (show ¬(ax < bx) from by omega),
          if_neg (show ¬(ay < byy) from by omega), if_pos hx, if_pos hy]
        exact (losWalk_diag_symm g bx byy ax ay (ax - bx) 1 1 (-1) (-1) _ _
          (by omega) (Or.inl rfl) (Or.inl rfl) (by norm_num) (by norm_num)
          (by ring) (by omega) (by omega) (by omega)).symm

theorem hasLineOfSight_symm_aligned_witness :
    (((0 : Int), (0 : Int)).1 = ((0 : Int), (1 : Int)).1 ∨
      ((0 : Int), (0 : Int)).2 = ((0 : Int), (1 : Int)).2 ∨
      |((0 : Int), (1 : Int)).1 - ((0 : Int), (0 : Int)).1| =
        |((0 : Int), (1 : Int)).2 - ((0 : Int), (0 : Int)).2|) ∧
    hasLineOfSight losGrid (0, 0) (0, 1) = hasLineOfSight losGrid (0, 1) (0, 0) :=
  ⟨Or.inl rfl, hasLineOfSight_symm_aligned losGrid (0, 0) (0, 1) (Or.inl rfl)⟩

/-! ## C4: region labeling machinery -/

theorem isPassable_paint (t : Tile) (cur : Nat) :
    isPassable (paint t cur) = isPassable t := rfl

theorem regionId_paint (t : Tile) (cur : Nat) :
    (paint t cur).regionId = some cur := rfl

theorem adj4_ne {p q : Pos} (h : adj4 p q) : p ≠ q := by
  rintro rfl
  obtain ⟨px, py⟩ := p
  unfold adj4 at h
  rcases h with ⟨h1, h2⟩ | ⟨h1, h2⟩ | ⟨h1, h2⟩ | ⟨h1, h2⟩ <;> omega

theorem mem_rowMajor {cols rows : Nat} {p : Pos} :
    p ∈ rowMajor cols rows ↔ inB cols rows p := by
  obtain ⟨x, y⟩ := p
  simp only [rowMajor, List.mem_flatMap, List.mem_map, List.mem_range, inB]
  constructor
  · rintro ⟨a, ha, b, hb, heq⟩
    have h1 := congrArg Prod.fst heq
    have h2 := congrArg Prod.snd heq
    simp only at h1 h2
    subst h1; subst h2
    exact ⟨hb, ha⟩
  · rintro ⟨hx, hy⟩
    exact ⟨y, hy, x, hx, rfl⟩

theorem rowMajor_nodup (cols rows : Nat) : (rowMajor cols rows).Nodup := by
  unfold rowMajor
  refine List.nodup_flatMap.2 ⟨?_, ?_⟩
  · intro y _
    exact (List.nodup_range cols).map fun a b h => by
      simpa using congrArg Prod.fst h
  · refine (List.nodup_range rows).imp ?_
    intro y1 y2 hne
    simp only [Function.onFun, List.Disjoint]
    intro p hp1 hp2
    simp only [List.mem_map, List.mem_range] at hp1 hp2
    obtain ⟨x1, _, rfl⟩ := hp1
    obtain ⟨x2, _, heq⟩ := hp2
    have h2 := congrArg Prod.snd heq
    simp only at h2
    exact hne h2.symm

theorem length_pushNeighbors (cols rows : Nat) (g : Grid) (x y : Nat) :
    (pushNeighbors cols rows g x y).length ≤ 4 := by
  have h := List.length_filterMap_le
    (fun d : Int × Int =>
      let nx : Int := (x : Int) + d.1
      let ny : Int := (y : Int) + d.2
      if 0 ≤ nx ∧ 0 ≤ ny ∧ nx < (cols : Int) ∧ ny < (rows : Int) then
        let p : Pos := (nx.toNat, ny.toNat)
        let nb := getT g p.1 p.2
        if isPassable nb = true ∧ nb.regionId = none then some p else none
      else none) labelDirs
  simpa [labelDirs] using h

theorem mem_pushNeighbors {cols rows : Nat} {g : Grid} {x y : Nat} {q : Pos} :
    q ∈ pushNeighbors cols rows g x y ↔
      (adj4 (x, y) q ∧ inB cols rows q ∧ isPassable (getT g q.1 q.2) = true ∧
        (getT g q.1 q.2).regionId = none) := by
  obtain ⟨qx, qy⟩ := q
  simp only [pushNeighbors, List.mem_filterMap, labelDirs, List.mem_cons,
    List.not_mem_nil, or_false]
  constructor
  · rintro ⟨d, hd, hf⟩
    rcases hd with rfl | rfl | rfl | rfl <;>
    · dsimp only at hf
      split_ifs at hf with h1 h2
      · rw [Option.some.injEq, Prod.mk.injEq] at hf
        obtain ⟨hfx, hfy⟩ := hf
        obtain ⟨h1a, h1b, h1c, h1d⟩ := h1
        rw [hfx, hfy] at h2
        refine ⟨?_, ⟨by omega, by omega⟩, h2.1, h2.2⟩
        unfold adj4
        omega
      all_goals exact absurd hf (by simp)
  · rintro ⟨hadj, ⟨hbx, hby⟩, hpass, hreg⟩
    unfold adj4 at hadj
    rcases hadj with ⟨h1, h2⟩ | ⟨h1, h2⟩ | ⟨h1, h2⟩ | ⟨h1, h2⟩
    · refine ⟨(1, 0), Or.inl rfl, ?_⟩
      dsimp only
      rw [if_pos ⟨by omega, by omega, by omega, by omega⟩,
        show ((x : Int) + 1).toNat = qx from by omega,
        show ((y : Int) + 0).toNat = qy from by omega,
        if_pos ⟨hpass, hreg⟩]
    · refine ⟨(-1, 0), Or.inr (Or.inl rfl), ?_⟩
      dsimp only
      rw [if_pos ⟨by omega, by omega, by omega, by omega⟩,
        show ((x : Int) + -1).toNat = qx from by omega,
        show ((y : Int) + 0).toNat = qy from by omega,
        if_pos ⟨hpass, hreg⟩]
    · refine ⟨(0, 1), Or.inr (Or.inr (Or.inl rfl)), ?_⟩
      dsimp only
      rw [if_pos ⟨by omega, by omega, by omega, by omega⟩,
        show ((x : Int) + 0).toNat = qx from by omega,
        show ((y : Int) + 1).toNat = qy from by omega,
        if_pos ⟨hpass, hreg⟩]
    · refine ⟨(0, -1), Or.inr (Or.inr (Or.inr rfl)), ?_⟩
      dsimp only
      rw [if_pos ⟨by omega, by omega, by omega, by omega⟩,
        show ((x : Int) + 0).toNat = qx from by omega,
        show ((y : Int) + -1).toNat = qy from by omega,
        if_pos ⟨hpass, hreg⟩]

/-- The number of in-bounds passable unlabeled cells, the BFS fuel
measure. -/
def unlabeledCount (cols rows : Nat) (g : Grid) : Nat :=
  ((Finset.range cols ×ˢ Finset.range rows).filter
    (fun p => isPassable (getT g p.1 p.2) = true ∧ (getT g p.1 p.2).regionId = none)).card

theorem unlabeledCount_update (cols rows : Nat) (g g' : Grid) (p : Pos)
    (hin : inB cols rows p)
    (hpass : isPassable (getT g p.1 p.2) = true)
    (hreg : (getT g p.1 p.2).regionId = none)
    (hsame : ∀ q : Pos, q ≠ p → getT g' q.1 q.2 = getT g q.1 q.2)
    (hp' : (getT g' p.1 p.2).regionId ≠ none) :
    unlabeledCount cols rows g' + 1 = unlabeledCount cols rows g := by
  unfold unlabeledCount
  have hmem : p ∈ (Finset.range cols ×ˢ Finset.range rows).filter
      (fun p => isPassable (getT g p.1 p.2) = true ∧ (getT g p.1 p.2).regionId = none) := by
    rw [Finset.mem_filter, Finset.mem_product, Finset.mem_range, Finset.mem_range]
    exact ⟨⟨hin.1, hin.2⟩, hpass, hreg⟩
  have hset : (Finset.range cols ×ˢ Finset.range rows).filter
      (fun p => isPassable (getT g' p.1 p.2) = true ∧ (getT g' p.1 p.2).regionId = none) =
      ((Finset.range cols ×ˢ Finset.range rows).filter
        (fun p => isPassable (getT g p.1 p.2) = true ∧
          (getT g p.1 p.2).regionId = none)).erase p := by
    ext q
    rw [Finset.mem_erase, Finset.mem_filter, Finset.mem_filter]
    constructor
    · rintro ⟨hq, hq1, hq2⟩
      have hqp : q ≠ p := by
        rintro rfl
        exact hp' hq2
      rw [hsame q hqp] at hq1 hq2
      exact ⟨hqp, hq, hq1, hq2⟩
    · rintro ⟨hqp, hq, hq1, hq2⟩
      rw [← hsame q hqp] at hq1 hq2
      exact ⟨hq, hq1, hq2⟩
  rw [hset, Finset.card_erase_of_mem hmem]
  have := Finset.card_pos.mpr ⟨p, hmem⟩
  omega

theorem bfsFill_rows (cols rows cur : Nat) (fuel : Nat) (queue : List Pos) (g : Grid) :
    gridRows (bfsFill cols rows cur fuel queue g) = gridRows g := by
  induction fuel generalizing queue g with
  | zero => rfl
  | succ fuel ih =>
    cases queue with
    | nil => rfl
    | cons p queue =>
      simp only [bfsFill]
      split
      · rw [ih, gridRows_updateTiles]
      · rw [ih]

theorem bfsFill_cols (cols rows cur : Nat) (fuel : Nat) (queue : List Pos) (g : Grid) :
    gridCols (bfsFill cols rows cur fuel queue g) = gridCols g := by
  induction fuel generalizing queue g with
  | zero => rfl
  | succ fuel ih =>
    cases queue with
    | nil => rfl
    | cons p queue =>
      simp only [bfsFill]
      split
      · rw [ih, gridCols_updateTiles]
      · rw [ih]

theorem bfsFill_rect (cols rows cur : Nat) (fuel : Nat) (queue : List Pos) (g : Grid)
    (hr : Rect g) : Rect (bfsFill cols rows cur fuel queue g) := by
  induction fuel generalizing queue g with
  | zero => exact hr
  | succ fuel ih =>
    cases queue with
    | nil => exact hr
    | cons p queue =>
      simp only [bfsFill]
      split
      · exact ih _ _ (rect_updateTiles _ _ _ _ hr)
      · exact ih _ _ hr

theorem ne_of_pos_ne {a b : Pos} (h : ¬(a.1 = b.1 ∧ a.2 = b.2)) : a ≠ b := by
  intro hc
  subst hc
  exact h ⟨rfl, rfl⟩

theorem pos_ne_of_ne {a b : Pos} (h : a ≠ b) : ¬(a.1 = b.1 ∧ a.2 = b.2) := by
  intro hc
  exact h (Prod.ext hc.1 hc.2)

/-- The master invariant lemma for the flood-fill BFS: starting from a
grid `G` that differs from the reference grid `R` only by `cur`-paint on
some cells of the seed's component, with the queue covering the frontier,
enough fuel labels exactly the component of the seed with `cur` and
changes nothing else. -/
theorem bfsFill_spec (cols rows cur : Nat) (R : Grid) (s : Pos)
    (hspass : isPassable (getT R s.1 s.2) = true)
    (hs : inB cols rows s)
    (hcomp : ∀ p : Pos, ReachP cols rows (passAt R) s p →
      (getT R p.1 p.2).regionId = none) :
    ∀ (fuel : Nat) (queue : List Pos) (G : Grid),
      gridRows G = rows → gridCols G = cols → Rect G →
      queue.length + 5 * unlabeledCount cols rows G ≤ fuel →
      (∀ p ∈ queue, inB cols rows p ∧ ReachP cols rows (passAt R) s p) →
      (∀ p : Pos, getT G p.1 p.2 = getT R p.1 p.2 ∨
        (ReachP cols rows (passAt R) s p ∧
          getT G p.1 p.2 = paint (getT R p.1 p.2) cur)) →
      (∀ p q : Pos, ReachP cols rows (passAt R) s p →
        (getT G p.1 p.2).regionId ≠ none → AdjP cols rows (passAt R) p q →
        (getT G q.1 q.2).regionId = none → q ∈ queue) →
      ((getT G s.1 s.2).regionId = none → s ∈ queue) →
      ∀ p : Pos,
        (ReachP cols rows (passAt R) s p →
          getT (bfsFill cols rows cur fuel queue G) p.1 p.2 =
            paint (getT R p.1 p.2) cur) ∧
        (¬ReachP cols rows (passAt R) s p →
          getT (bfsFill cols rows cur fuel queue G) p.1 p.2 = getT G p.1 p.2) := by
  intro fuel
  induction fuel with
  | zero =>
    intro queue G hrows hcols hrect hfuel hQ hG hfront hseed p
    refine ⟨fun hreach => ?_, fun _ => rfl⟩
    show getT G p.1 p.2 = _
    · have hp := ReachP_inv hreach ⟨hs, hspass⟩
      rcases hG p with hgp | ⟨_, hgp⟩
      · exfalso
        have hU : unlabeledCount cols rows G = 0 := by omega
        have hpmem : p ∈ (Finset.range cols ×ˢ Finset.range rows).filter
            (fun q : Pos => isPassable (getT G q.1 q.2) = true ∧
              (getT G q.1 q.2).regionId = none) := by
          rw [Finset.mem_filter, Finset.mem_product, Finset.mem_range, Finset.mem_range]
          refine ⟨⟨hp.1.1, hp.1.2⟩, ?_, ?_⟩
          · rw [hgp]; exact hp.2
          · rw [hgp]; exact hcomp p hreach
        rw [unlabeledCount, Finset.card_eq_zero] at hU
        rw [hU] at hpmem
        exact absurd hpmem (Finset.not_mem_empty p)
      · exact hgp
  | succ fuel ih =>
    intro queue G hrows hcols hrect hfuel hQ hG hfront hseed p
    cases queue with
    | nil =>
      have hlab : ∀ q : Pos, ReachP cols rows (passAt R) s q →
          (getT G q.1 q.2).regionId ≠ none := by
        intro q hq
        induction hq with
        | refl =>
          intro hnone
          exact absurd (hseed hnone) (List.not_mem_nil s)
        | tail hreach hstep ihq =>
          rename_i b c
          intro hnone
          exact absurd (hfront b c hreach ihq hstep hnone) (List.not_mem_nil c)
      refine ⟨fun hreach => ?_, fun _ => rfl⟩
      show getT G p.1 p.2 = _
      rcases hG p with hgp | ⟨_, hgp⟩
      · exfalso
        apply hlab p hreach
        rw [hgp]
        exact hcomp p hreach
      · exact hgp
    | cons q0 queue =>
      -- passability of q0 in G equals that in R
      obtain ⟨hq0in, hq0reach⟩ := hQ q0 (List.mem_cons_self _ _)
      have hq0passR : passAt R q0 := (ReachP_inv hq0reach ⟨hs, hspass⟩).2
      have hq0passG : isPassable (getT G q0.1 q0.2) = true := by
        rcases hG q0 with h | ⟨_, h⟩
        · rw [h]; exact hq0passR
        · rw [h, isPassable_paint]; exact hq0passR
      simp only [bfsFill]
      split
      · -- label q0 and push its unlabeled passable neighbours
        rename_i hcond
        obtain ⟨hpassG, hunlab⟩ := hcond
        have hGR : getT G q0.1 q0.2 = getT R q0.1 q0.2 := by
          rcases hG q0 with h | ⟨_, h⟩
          · exact h
          · rw [h] at hunlab
            exact absurd hunlab (by simp [paint])
        have hreal2 : q0.2 < G.length := by
          have h2 := hq0in.2
          have h3 : gridRows G = rows := hrows
          unfold gridRows at h3
          omega
        have hreal1 : q0.1 < (G.getD q0.2 []).length := by
          rw [hrect q0.2 hreal2, hcols]
          exact hq0in.1
        have hG'q0 : getT (updateTiles G q0.1 q0.2 (fun u => paint u cur)) q0.1 q0.2 =
            paint (getT G q0.1 q0.2) cur := by
          rw [getT_updateTiles, if_pos ⟨rfl, rfl, hreal2, hreal1⟩]
        have hG'other : ∀ q : Pos, q ≠ q0 →
            getT (updateTiles G q0.1 q0.2 (fun u => paint u cur)) q.1 q.2 =
              getT G q.1 q.2 := by
          intro q hq
          exact getT_updateTiles_other _ _ _ _ _ _ (pos_ne_of_ne hq)
        have hpassG' : ∀ q : Pos,
            isPassable (getT (updateTiles G q0.1 q0.2 (fun u => paint u cur)) q.1 q.2) =
              isPassable (getT G q.1 q.2) := by
          intro q
          by_cases hq : q = q0
          · subst hq
            rw [hG'q0, isPassable_paint]
          · rw [hG'other q hq]
        have hpassRG : ∀ q : Pos, isPassable (getT G q.1 q.2) =
            isPassable (getT R q.1 q.2) := by
          intro q
          rcases hG q with h | ⟨_, h⟩
          · rw [h]
          · rw [h, isPassable_paint]
        have hcount := unlabeledCount_update cols rows G
          (updateTiles G q0.1 q0.2 (fun u => paint u cur)) q0 hq0in hpassG hunlab
          hG'other (by rw [hG'q0]; simp [paint])
        have hpush := length_pushNeighbors cols rows
          (updateTiles G q0.1 q0.2 (fun u => paint u cur)) q0.1 q0.2
        have happly := ih
          (queue ++ pushNeighbors cols rows
            (updateTiles G q0.1 q0.2 (fun u => paint u cur)) q0.1 q0.2)
          (updateTiles G q0.1 q0.2 (fun u => paint u cur))
          (by rw [gridRows_updateTiles]; exact hrows)
          (by rw [gridCols_updateTiles]; exact hcols)
          (rect_updateTiles _ _ _ _ hrect)
          (by
            rw [List.length_append]
            simp only [List.length_cons] at hfuel
            omega)
          (by
            intro q hq
            rcases List.mem_append.mp hq with hq | hq
            · exact hQ q (List.mem_cons_of_mem _ hq)
            · rw [mem_pushNeighbors] at hq
              obtain ⟨hadj, hinq, hpassq, _⟩ := hq
              have hpassRq : passAt R q := by
                unfold passAt
                rw [← hpassRG q, ← hpassG' q]
                exact hpassq
              exact ⟨hinq, Relation.ReflTransGen.tail hq0reach
                ⟨hq0in, hinq, hq0passR, hpassRq, hadj⟩⟩)
          (by
            intro q
            by_cases hq : q = q0
            · subst hq
              right
              refine ⟨hq0reach, ?_⟩
              rw [hG'q0, hGR]
            · rw [hG'other q hq]
              exact hG q)
          (by
            intro a b hreach hlaba hadj hunlabb
            have hbne : b ≠ q0 := by
              intro hc
              rw [hc, hG'q0] at hunlabb
              simp [paint] at hunlabb
            have hunlabbG : (getT G b.1 b.2).regionId = none := by
              rw [← hG'other b hbne]
              exact hunlabb
            by_cases ha : a = q0
            · subst ha
              apply List.mem_append.mpr
              right
              rw [mem_pushNeighbors]
              refine ⟨hadj.2.2.2.2, hadj.2.1, ?_, hunlabb⟩
              rw [hpassG' b, hpassRG b]
              exact hadj.2.2.2.1
            · rw [hG'other a ha] at hlaba
              have hb := hfront a b hreach hlaba hadj hunlabbG
              rcases List.mem_cons.mp hb with hb | hb
              · exact absurd hb hbne
              · exact List.mem_append.mpr (Or.inl hb))
          (by
            intro hsu
            have hsne : s ≠ q0 := by
              intro hc
              rw [hc, hG'q0] at hsu
              simp [paint] at hsu
            rw [hG'other s hsne] at hsu
            have hsq := hseed hsu
            rcases List.mem_cons.mp hsq with h | h
            · exact absurd h hsne
            · exact List.mem_append.mpr (Or.inl h))
          p
        refine ⟨fun hreach => (happly.1 hreach), fun hnreach => ?_⟩
        rw [happly.2 hnreach]
        apply hG'other
        intro hc
        rw [hc] at hnreach
        exact hnreach hq0reach
      · -- q0 is already labeled (or impossible: not passable): skip it
        rename_i hcond
        have hq0lab : (getT G q0.1 q0.2).regionId ≠ none := by
          intro hnone
          exact hcond ⟨hq0passG, hnone⟩
        refine ih queue G hrows hcols hrect
          (by simp only [List.length_cons] at hfuel; omega)
          (fun q hq => hQ q (List.mem_cons_of_mem _ hq)) hG
          (fun a b hreach hlaba hadj hunlabb => ?_)
          (fun hsu => ?_) p
        · have hb := hfront a b hreach hlaba hadj hunlabb
          rcases List.mem_cons.mp hb with hb | hb
          · exfalso
            rw [hb] at hunlabb
            exact hq0lab hunlabb
          · exact hb
        · have hsq := hseed hsu
          rcases List.mem_cons.mp hsq with hsq | hsq
          · exfalso
            rw [hsq] at hsu
            exact hq0lab hsu
          · exact hsq

theorem AdjP_congr {cols rows : Nat} {pass1 pass2 : Pos → Prop}
    (h : ∀ p, pass1 p ↔ pass2 p) (a b : Pos) :
    AdjP cols rows pass1 a b ↔ AdjP cols rows pass2 a b := by
  unfold AdjP
  rw [h a, h b]

theorem ReachP_congr {cols rows : Nat} {pass1 pass2 : Pos → Prop}
    (h : ∀ p, pass1 p ↔ pass2 p) (a b : Pos) :
    ReachP cols rows pass1 a b ↔ ReachP cols rows pass2 a b :=
  ⟨ReachP_mono (fun r hr => (h r).mp hr), ReachP_mono (fun r hr => (h r).mpr hr)⟩

theorem unlabeledCount_le (cols rows : Nat) (g : Grid) :
    unlabeledCount cols rows g ≤ cols * rows := by
  unfold unlabeledCount
  calc _ ≤ (Finset.range cols ×ˢ Finset.range rows).card := Finset.card_filter_le _ _
    _ = cols * rows := by rw [Finset.card_product, Finset.card_range, Finset.card_range]

/-- The master invariant lemma for the outer raster scan of
`labelRegions`: scanning `todo` preserves the labeling invariants,
leaves already-labeled tiles untouched, and labels every passable cell
of `todo`. -/
theorem labelLoop_spec (cols rows : Nat) (pass : Pos → Prop) :
    ∀ (todo : List Pos) (cur : Nat) (G : Grid),
      gridRows G = rows → gridCols G = cols → Rect G → 1 ≤ cur →
      (∀ p ∈ todo, inB cols rows p) →
      (∀ p : Pos, passAt G p ↔ pass p) →
      (∀ p : Pos, ¬pass p → (getT G p.1 p.2).regionId = none) →
      (∀ p q : Pos, (getT G p.1 p.2).regionId ≠ none →
        AdjP cols rows pass p q → (getT G q.1 q.2).regionId ≠ none) →
      (∀ (p : Pos) (i : Nat), (getT G p.1 p.2).regionId = some i → 1 ≤ i ∧ i < cur) →
      (∀ p q : Pos, (getT G p.1 p.2).regionId ≠ none →
        (getT G q.1 q.2).regionId ≠ none →
        ((getT G p.1 p.2).regionId = (getT G q.1 q.2).regionId ↔
          ReachP cols rows pass p q)) →
      (∀ p : Pos, (getT G p.1 p.2).regionId ≠ none → inB cols rows p ∧ pass p) →
      (∀ q : Pos, (getT G q.1 q.2).regionId ≠ none →
        getT (labelLoop cols rows todo cur G) q.1 q.2 = getT G q.1 q.2) ∧
      (∀ p : Pos, ¬pass p →
        (getT (labelLoop cols rows todo cur G) p.1 p.2).regionId = none) ∧
      (∀ p : Pos, (getT (labelLoop cols rows todo cur G) p.1 p.2).regionId ≠ none →
        inB cols rows p ∧ pass p) ∧
      (∀ p q : Pos, (getT (labelLoop cols rows todo cur G) p.1 p.2).regionId ≠ none →
        (getT (labelLoop cols rows todo cur G) q.1 q.2).regionId ≠ none →
        ((getT (labelLoop cols rows todo cur G) p.1 p.2).regionId =
            (getT (labelLoop cols rows todo cur G) q.1 q.2).regionId ↔
          ReachP cols rows pass p q)) ∧
      (∀ p ∈ todo, pass p →
        (getT (labelLoop cols rows todo cur G) p.1 p.2).regionId ≠ none) := by
  intro todo
  induction todo with
  | nil =>
    intro cur G hrows hcols hrect hcur htodo hpass hJ1 hJ2 hJ3 hJ4 hJ5
    exact ⟨fun q _ => rfl, hJ1, hJ5, hJ4, fun p hp => absurd hp (List.not_mem_nil p)⟩
  | cons p0 todo ih =>
    intro cur G hrows hcols hrect hcur htodo hpass hJ1 hJ2 hJ3 hJ4 hJ5
    have hp0in : inB cols rows p0 := htodo p0 (List.mem_cons_self _ _)
    simp only [labelLoop]
    split
    · -- seed a new BFS at p0
      rename_i hcond
      obtain ⟨hp0pass, hp0unlab⟩ := hcond
      have hcomp : ∀ q : Pos, ReachP cols rows (passAt G) p0 q →
          (getT G q.1 q.2).regionId = none := by
        intro q hq
        induction hq with
        | refl => exact hp0unlab
        | tail hreach hstep ihq =>
          rename_i b c
          by_contra hc
          have hstep' : AdjP cols rows pass c b :=
            (AdjP_congr hpass c b).mp (AdjP_symm hstep)
          exact absurd (hJ2 c b hc hstep') (by simpa using ihq)
      have hfuel : 1 + 5 * unlabeledCount cols rows G ≤ 5 * (rows * cols) + 5 := by
        have h1 := unlabeledCount_le cols rows G
        have h2 : cols * rows = rows * cols := Nat.mul_comm cols rows
        omega
      have hbfs := bfsFill_spec cols rows cur G p0 hp0pass hp0in hcomp
        (5 * (rows * cols) + 5) [p0] G hrows hcols hrect
        (by simpa using hfuel)
        (by
          intro q hq
          rcases List.mem_singleton.mp hq with rfl
          exact ⟨hp0in, Relation.ReflTransGen.refl⟩)
        (fun q => Or.inl rfl)
        (by
          intro a b hreach hlab _ _
          exact absurd (hcomp a hreach) hlab)
        (fun _ => List.mem_singleton.mpr rfl)
      set G1 := bfsFill cols rows cur (5 * (rows * cols) + 5) [p0] G with hG1
      have hreqv : ∀ a b : Pos,
          ReachP cols rows (passAt G) a b ↔ ReachP cols rows pass a b :=
        fun a b => ReachP_congr hpass a b
      have hch : ∀ q : Pos, ReachP cols rows pass p0 q →
          getT G1 q.1 q.2 = paint (getT G q.1 q.2) cur := by
        intro q hq
        exact (hbfs q).1 ((hreqv p0 q).mpr hq)
      have hun : ∀ q : Pos, ¬ReachP cols rows pass p0 q →
          getT G1 q.1 q.2 = getT G q.1 q.2 := by
        intro q hq
        exact (hbfs q).2 (fun hc => hq ((hreqv p0 q).mp hc))
      have hcomp' : ∀ q : Pos, ReachP cols rows pass p0 q →
          (getT G q.1 q.2).regionId = none := by
        intro q hq
        exact hcomp q ((hreqv p0 q).mpr hq)
      have hpass1 : ∀ q : Pos, passAt G1 q ↔ pass q := by
        intro q
        rcases Classical.em (ReachP cols rows pass p0 q) with hq | hq
        · unfold passAt
          rw [hch q hq, isPassable_paint]
          exact hpass q
        · unfold passAt
          rw [hun q hq]
          exact hpass q
      have hlab1 : ∀ q : Pos, (getT G1 q.1 q.2).regionId ≠ none →
          (ReachP cols rows pass p0 q ∧ (getT G1 q.1 q.2).regionId = some cur) ∨
          (¬ReachP cols rows pass p0 q ∧
            getT G1 q.1 q.2 = getT G q.1 q.2 ∧
            (getT G q.1 q.2).regionId ≠ none) := by
        intro q hq
        rcases Classical.em (ReachP cols rows pass p0 q) with h | h
        · left
          refine ⟨h, ?_⟩
          rw [hch q h]
          rfl
        · right
          exact ⟨h, hun q h, by rw [← hun q h]; exact hq⟩
      have hJ1' : ∀ q : Pos, ¬pass q → (getT G1 q.1 q.2).regionId = none := by
        intro q hq
        rcases Classical.em (ReachP cols rows pass p0 q) with h | h
        · exact absurd (ReachP_inv h ⟨hp0in, (hpass p0).mp hp0pass⟩).2 hq
        · rw [hun q h]
          exact hJ1 q hq
      have hJ2' : ∀ a b : Pos, (getT G1 a.1 a.2).regionId ≠ none →
          AdjP cols rows pass a b → (getT G1 b.1 b.2).regionId ≠ none := by
        intro a b hlaba hadj
        rcases hlab1 a hlaba with ⟨hra, _⟩ | ⟨hra, heqa, holda⟩
        · have hrb : ReachP cols rows pass p0 b :=
            Relation.ReflTransGen.tail hra hadj
          rw [hch b hrb]
          simp [paint]
        · have hb := hJ2 a b holda hadj
          rcases Classical.em (ReachP cols rows pass p0 b) with h | h
          · rw [hch b h]
            simp [paint]
          · rw [hun b h]
            exact hb
      have hJ3' : ∀ (q : Pos) (i : Nat), (getT G1 q.1 q.2).regionId = some i →
          1 ≤ i ∧ i < cur + 1 := by
        intro q i hq
        rcases Classical.em (ReachP cols rows pass p0 q) with h | h
        · rw [hch q h] at hq
          simp only [paint] at hq
          rw [Option.some.injEq] at hq
          omega
        · rw [hun q h] at hq
          have := hJ3 q i hq
          omega
      have hJ4' : ∀ a b : Pos, (getT G1 a.1 a.2).regionId ≠ none →
          (getT G1 b.1 b.2).regionId ≠ none →
          ((getT G1 a.1 a.2).regionId = (getT G1 b.1 b.2).regionId ↔
            ReachP cols rows pass a b) := by
        intro a b hlaba hlabb
        rcases hlab1 a hlaba with ⟨hra, hva⟩ | ⟨hra, heqa, holda⟩ <;>
          rcases hlab1 b hlabb with ⟨hrb, hvb⟩ | ⟨hrb, heqb, holdb⟩
        · rw [hva, hvb]
          simp only [true_iff]
          exact Relation.ReflTransGen.trans (ReachP_symm hra) hrb
        · rw [hva, heqb]
          constructor
          · intro hc
            exfalso
            obtain ⟨i, hi⟩ := Option.ne_none_iff_exists'.mp holdb
            rw [hi] at hc
            have := hJ3 b i hi
            rw [Option.some.injEq] at hc
            omega
          · intro hc
            exfalso
            exact hrb (Relation.ReflTransGen.trans hra hc)
        · rw [heqa, hvb]
          constructor
          · intro hc
            exfalso
            obtain ⟨i, hi⟩ := Option.ne_none_iff_exists'.mp holda
            rw [hi] at hc
            have := hJ3 a i hi
            rw [Option.some.injEq] at hc
            omega
          · intro hc
            exfalso
            exact hra (Relation.ReflTransGen.trans hrb (ReachP_symm hc))
        · rw [heqa, heqb]
          exact hJ4 a b holda holdb
      have hJ5' : ∀ q : Pos, (getT G1 q.1 q.2).regionId ≠ none →
          inB cols rows q ∧ pass q := by
        intro q hq
        rcases hlab1 q hq with ⟨hrq, _⟩ | ⟨hrq, heq, hold⟩
        · exact ReachP_inv hrq ⟨hp0in, (hpass p0).mp hp0pass⟩
        · exact hJ5 q hold
      obtain ⟨hC1, hC2, hC3, hC4, hC5⟩ := ih (cur + 1) G1
        (by rw [hG1, bfsFill_rows]; exact hrows)
        (by rw [hG1, bfsFill_cols]; exact hcols)
        (by rw [hG1]; exact bfsFill_rect _ _ _ _ _ _ hrect)
        (by omega)
        (fun q hq => htodo q (List.mem_cons_of_mem _ hq))
        hpass1 hJ1' hJ2' hJ3' hJ4' hJ5'
      refine ⟨?_, hC2, hC3, hC4, ?_⟩
      · intro q hq
        have hq' : ¬ReachP cols rows pass p0 q := fun hc =>
          absurd (hcomp' q hc) hq
        rw [hC1 q (by rw [hun q hq']; exact hq), hun q hq']
      · intro q hq hqpass
        rcases List.mem_cons.mp hq with rfl | hq
        · have hlab : (getT G1 q.1 q.2).regionId ≠ none := by
            rw [hch q Relation.ReflTransGen.refl]
            simp [paint]
          rw [hC1 q hlab]
          exact hlab
        · exact hC5 q hq hqpass
    · -- p0 is already labeled or not passable: skip
      rename_i hcond
      obtain ⟨hC1, hC2, hC3, hC4, hC5⟩ := ih cur G hrows hcols hrect hcur
        (fun q hq => htodo q (List.mem_cons_of_mem _ hq))
        hpass hJ1 hJ2 hJ3 hJ4 hJ5
      refine ⟨hC1, hC2, hC3, hC4, ?_⟩
      intro q hq hqpass
      rcases List.mem_cons.mp hq with rfl | hq
      · have hlab : (getT G q.1 q.2).regionId ≠ none := by
          intro hnone
          exact hcond ⟨(hpass q).mpr hqpass, hnone⟩
        rw [hC1 q hlab]
        exact hlab
      · exact hC5 q hq hqpass

theorem getD_map_rows (F : List Tile → List Tile) (g : Grid) (y : Nat) :
    (g.map F).getD y [] = if y < g.length then F (g.getD y []) else [] := by
  induction g generalizing y with
  | nil => simp
  | cons row rest ih =>
    cases y with
    | zero => simp
    | succ y => simpa [Nat.succ_lt_succ_iff] using ih y

/-- The reset pass at the top of `labelRegions`. -/
def resetTile (t : Tile) : Tile :=
  { t with regionId := none, regionType := some (inferRegionType t) }

theorem labelRegions_def (g : Grid) :
    labelRegions g = labelLoop (gridCols g) (gridRows g)
      (rowMajor (gridCols g) (gridRows g)) 1
      (g.map fun row => row.map resetTile) := rfl

theorem getT_reset (g : Grid) (x y : Nat) :
    getT (g.map fun row => row.map resetTile) x y =
      if y < g.length ∧ x < (g.getD y []).length then resetTile (getT g x y)
      else defaultTile := by
  unfold getT
  rw [getD_map_rows]
  rcases Nat.lt_or_ge y g.length with hy | hy
  · rw [if_pos hy, getD_map_tile]
    rcases Nat.lt_or_ge x (g.getD y []).length with hx | hx
    · rw [if_pos hx, if_pos ⟨hy, hx⟩]
    · rw [if_neg (by omega), if_neg (by rintro ⟨-, h⟩; omega)]
  · rw [if_neg (by omega), if_neg (by rintro ⟨h, -⟩; omega)]
    simp

theorem reset_rows (g : Grid) :
    gridRows (g.map fun row => row.map resetTile) = gridRows g := by
  simp [gridRows]

theorem reset_cols (g : Grid) :
    gridCols (g.map fun row => row.map resetTile) = gridCols g := by
  rw [gridCols_getD, gridCols_getD, getD_map_rows]
  rcases Nat.lt_or_ge 0 g.length with h | h
  · rw [if_pos h]
    simp
  · rw [if_neg (by omega)]
    have : g = [] := List.eq_nil_of_length_eq_zero (by omega)
    simp [this]

theorem reset_rect (g : Grid) (hr : Rect g) :
    Rect (g.map fun row => row.map resetTile) := by
  intro y hy
  rw [reset_cols, getD_map_rows]
  rw [reset_rows] at hy
  rw [if_pos (by exact hy)]
  simp only [List.length_map]
  exact hr y hy

theorem isPassable_resetTile (t : Tile) : isPassable (resetTile t) = isPassable t := rfl

theorem passAt_reset (g : Grid) (p : Pos) :
    passAt (g.map fun row => row.map resetTile) p ↔ passAt g p := by
  unfold passAt
  rw [getT_reset]
  split
  · rw [isPassable_resetTile]
  · rw [getT_oob g p.1 p.2 (by assumption)]

theorem regionId_reset (g : Grid) (p : Pos) :
    (getT (g.map fun row => row.map resetTile) p.1 p.2).regionId = none := by
  rw [getT_reset]
  split
  · rfl
  · rfl

/-- The full characterization of `labelRegions`: on a rectangular grid,
a tile gets a `regionId` exactly when it is passable, and two tiles get
the same `regionId` exactly when they are connected by a path of
4-directionally adjacent passable tiles. -/
theorem labelRegions_spec (g : Grid) (hrect : Rect g) :
    (∀ q : Pos, (getT (labelRegions g) q.1 q.2).regionId ≠ none →
      inB (gridCols g) (gridRows g) q ∧ passAt g q) ∧
    (∀ p : Pos, inB (gridCols g) (gridRows g) p → passAt g p →
      (getT (labelRegions g) p.1 p.2).regionId ≠ none) ∧
    (∀ p q : Pos, (getT (labelRegions g) p.1 p.2).regionId ≠ none →
      (getT (labelRegions g) q.1 q.2).regionId ≠ none →
      ((getT (labelRegions g) p.1 p.2).regionId =
          (getT (labelRegions g) q.1 q.2).regionId ↔
        ReachP (gridCols g) (gridRows g) (passAt g) p q)) := by
  have hmain := labelLoop_spec (gridCols g) (gridRows g) (passAt g)
    (rowMajor (gridCols g) (gridRows g)) 1 (g.map fun row => row.map resetTile)
    (reset_rows g) (reset_cols g) (reset_rect g hrect) le_rfl
    (fun p hp => mem_rowMajor.mp hp)
    (passAt_reset g)
    (fun p _ => regionId_reset g p)
    (fun p q hp _ => absurd (regionId_reset g p) hp)
    (fun p i hp => absurd (regionId_reset g p) (by rw [hp]; simp))
    (fun p q hp _ => absurd (regionId_reset g p) hp)
    (fun p hp => absurd (regionId_reset g p) hp)
  obtain ⟨hC1, hC2, hC3, hC4, hC5⟩ := hmain
  rw [← labelRegions_def] at hC3 hC4 hC5
  exact ⟨hC3, fun p hin hpass => hC5 p (mem_rowMajor.mpr hin) hpass, hC4⟩

/-- C4: in `labelRegions(g)` every passable tile (not a wall, not an
unrevealed secret door) carries a `regionId`, every non-passable tile
carries none, and two in-bounds passable tiles carry the same `regionId`
exactly when they are connected by a path of 4-directionally adjacent
passable tiles. -/
theorem labelRegions_correct (g : Grid) (hrect : Rect g) (p q : Pos)
    (hp : inB (gridCols g) (gridRows g) p) (hq : inB (gridCols g) (gridRows g) q) :
    ((getT (labelRegions g) p.1 p.2).regionId ≠ none ↔ passAt g p) ∧
    (passAt g p → passAt g q →
      ((getT (labelRegions g) p.1 p.2).regionId =
          (getT (labelRegions g) q.1 q.2).regionId ↔
        ReachP (gridCols g) (gridRows g) (passAt g) p q)) := by
  obtain ⟨h1, h2, h3⟩ := labelRegions_spec g hrect
  constructor
  · constructor
    · intro hl
      exact (h1 p hl).2
    · intro hpass
      exact h2 p hp hpass
  · intro hpassp hpassq
    exact h3 p q (h2 p hp hpassp) (h2 q hq hpassq)

/-- A small concrete grid: two rooms in opposite corners, separated by
walls. -/
def cornersGrid : Grid :=
  [[mkTile .room, mkTile .wall],
   [mkTile .wall, mkTile .room]]

theorem labelRegions_correct_witness :
    Rect cornersGrid ∧
    inB (gridCols cornersGrid) (gridRows cornersGrid) (0, 0) ∧
    inB (gridCols cornersGrid) (gridRows cornersGrid) (1, 1) ∧
    (((getT (labelRegions cornersGrid) 0 0).regionId ≠ none ↔ passAt cornersGrid (0, 0)) ∧
      (passAt cornersGrid (0, 0) → passAt cornersGrid (1, 1) →
        ((getT (labelRegions cornersGrid) 0 0).regionId =
            (getT (labelRegions cornersGrid) 1 1).regionId ↔
          ReachP (gridCols cornersGrid) (gridRows cornersGrid)
            (passAt cornersGrid) (0, 0) (1, 1)))) :=
  ⟨by decide, by decide, by decide,
   labelRegions_correct cornersGrid (by decide) (0, 0) (1, 1) (by decide) (by decide)⟩

/-! ## C5: region-count monotonicity under secret-door reveal -/

theorem labelLoop_rows (cols rows : Nat) (todo : List Pos) (cur : Nat) (g : Grid) :
    gridRows (labelLoop cols rows todo cur g) = gridRows g := by
  induction todo generalizing cur g with
  | nil => rfl
  | cons p todo ih =>
    simp only [labelLoop]
    split
    · rw [ih, bfsFill_rows]
    · rw [ih]

theorem labelLoop_cols (cols rows : Nat) (todo : List Pos) (cur : Nat) (g : Grid) :
    gridCols (labelLoop cols rows todo cur g) = gridCols g := by
  induction todo generalizing cur g with
  | nil => rfl
  | cons p todo ih =>
    simp only [labelLoop]
    split
    · rw [ih, bfsFill_cols]
    · rw [ih]

theorem labelRegions_rows (g : Grid) : gridRows (labelRegions g) = gridRows g := by
  rw [labelRegions_def, labelLoop_rows, reset_rows]

theorem labelRegions_cols (g : Grid) : gridCols (labelRegions g) = gridCols g := by
  rw [labelRegions_def, labelLoop_cols, reset_cols]

/-- The tile update `searchAround` applies when it reveals a hidden
feature at `p`. -/
def revealTile (g : Grid) (p : Pos) : Grid :=
  updateTiles g p.1 p.2 (fun t => { t with revealed := true })

/-- The number of distinct `regionId` values present on the grid. -/
def regionCount (g : Grid) : Nat :=
  (((Finset.range (gridCols g) ×ˢ Finset.range (gridRows g)).filter
      (fun p : Pos => (getT g p.1 p.2).regionId ≠ none)).image
    (fun p : Pos => (getT g p.1 p.2).regionId)).card

/-- A 1 × 1 grid holding a single unrevealed secret door. -/
def lonelyDoorGrid : Grid := [[mkTile .secretDoor]]

/-- C5 counterexample: on a grid whose only tile is an unrevealed secret
door, revealing it takes the region count from 0 to 1 — revealing a
secret door CAN increase the number of distinct region ids. -/
theorem reveal_increases_regions_counterexample :
    (getT lonelyDoorGrid 0 0).type = TileType.secretDoor ∧
    (getT lonelyDoorGrid 0 0).revealed = false ∧
    regionCount (labelRegions lonelyDoorGrid) = 0 ∧
    regionCount (labelRegions (revealTile lonelyDoorGrid (0, 0))) = 1 ∧
    ¬(regionCount (labelRegions (revealTile lonelyDoorGrid (0, 0))) ≤
        regionCount (labelRegions lonelyDoorGrid)) :=
  ⟨rfl, rfl, by decide, by decide, by decide⟩

theorem revealTile_rows (g : Grid) (p : Pos) :
    gridRows (revealTile g p) = gridRows g := gridRows_updateTiles g p.1 p.2 _

theorem revealTile_cols (g : Grid) (p : Pos) :
    gridCols (revealTile g p) = gridCols g := gridCols_updateTiles g p.1 p.2 _

theorem revealTile_rect (g : Grid) (p : Pos) (hr : Rect g) :
    Rect (revealTile g p) := rect_updateTiles g p.1 p.2 _ hr

theorem getT_revealTile_self (g : Grid) (p : Pos) (hrect : Rect g)
    (hin : inB (gridCols g) (gridRows g) p) :
    getT (revealTile g p) p.1 p.2 = { getT g p.1 p.2 with revealed := true } := by
  unfold revealTile
  have hx : p.1 < (g.getD p.2 []).length := by
    rw [hrect p.2 hin.2]
    exact hin.1
  rw [getT_updateTiles, if_pos ⟨rfl, rfl, hin.2, hx⟩]

theorem getT_revealTile_other (g : Grid) (p q : Pos) (hne : q ≠ p) :
    getT (revealTile g p) q.1 q.2 = getT g q.1 q.2 :=
  getT_updateTiles_other _ _ _ _ _ _ (pos_ne_of_ne hne)

theorem passAt_revealTile_self (g : Grid) (p : Pos) (hrect : Rect g)
    (hin : inB (gridCols g) (gridRows g) p)
    (htype : (getT g p.1 p.2).type = TileType.secretDoor) :
    passAt (revealTile g p) p := by
  unfold passAt
  rw [getT_revealTile_self g p hrect hin]
  simp [isPassable, htype]

theorem passAt_revealTile_mono (g : Grid) (p q : Pos) (hrect : Rect g)
    (hin : inB (gridCols g) (gridRows g) p)
    (htype : (getT g p.1 p.2).type = TileType.secretDoor)
    (hq : passAt g q) : passAt (revealTile g p) q := by
  by_cases hqp : q = p
  · subst hqp
    exact passAt_revealTile_self g q hrect hin htype
  · unfold passAt at hq ⊢
    rw [getT_revealTile_other g p q hqp]
    exact hq

theorem passAt_revealTile_of_ne (g : Grid) (p q : Pos) (hne : q ≠ p) :
    passAt (revealTile g p) q ↔ passAt g q := by
  unfold passAt
  rw [getT_revealTile_other g p q hne]

/-- C5 (amended): revealing an unrevealed secret door that has at least
one passable 4-neighbour never increases the number of distinct region
ids produced by `labelRegions` (for an isolated secret door the count
can go up by one, see the counterexample). -/
theorem reveal_secretDoor_regionCount (g : Grid) (hrect : Rect g) (p n : Pos)
    (hin : inB (gridCols g) (gridRows g) p)
    (htype : (getT g p.1 p.2).type = TileType.secretDoor)
    (hnin : inB (gridCols g) (gridRows g) n)
    (hadj : adj4 p n)
    (hnpass : passAt g n) :
    regionCount (labelRegions (revealTile g p)) ≤ regionCount (labelRegions g) := by
  classical
  obtain ⟨hA1, hA2, hA3⟩ := labelRegions_spec g hrect
  obtain ⟨hB1, hB2, hB3⟩ := labelRegions_spec (revealTile g p) (revealTile_rect g p hrect)
  rw [revealTile_cols, revealTile_rows] at hB1 hB2 hB3
  have hmono : ∀ r : Pos, passAt g r → passAt (revealTile g p) r :=
    fun r hr => passAt_revealTile_mono g p r hrect hin htype hr
  have hppass : passAt (revealTile g p) p := passAt_revealTile_self g p hrect hin htype
  have hnpass' : passAt (revealTile g p) n := hmono n hnpass
  have hnp : n ≠ p := (adj4_ne hadj).symm
  unfold regionCount
  rw [labelRegions_cols, labelRegions_rows, labelRegions_cols, labelRegions_rows,
    revealTile_cols, revealTile_rows]
  have hrep : ∀ v : Option Nat,
      v ∈ ((Finset.range (gridCols g) ×ˢ Finset.range (gridRows g)).filter
          (fun q : Pos =>
            (getT (labelRegions (revealTile g p)) q.1 q.2).regionId ≠ none)).image
        (fun q : Pos => (getT (labelRegions (revealTile g p)) q.1 q.2).regionId) →
      ∃ q : Pos, inB (gridCols g) (gridRows g) q ∧
        (getT (labelRegions (revealTile g p)) q.1 q.2).regionId = v ∧ q ≠ p ∧
        passAt g q := by
    intro v hv
    rw [Finset.mem_image] at hv
    obtain ⟨q, hqmem, hqv⟩ := hv
    rw [Finset.mem_filter, Finset.mem_product, Finset.mem_range, Finset.mem_range] at hqmem
    obtain ⟨⟨hq1, hq2⟩, hqlab⟩ := hqmem
    by_cases hqp : q = p
    · have hnlab : (getT (labelRegions (revealTile g p)) n.1 n.2).regionId ≠ none :=
        hB2 n hnin hnpass'
      rw [hqp] at hqlab hqv
      have hreach : ReachP (gridCols g) (gridRows g) (passAt (revealTile g p)) p n :=
        Relation.ReflTransGen.single ⟨hin, hnin, hppass, hnpass', hadj⟩
      have hids := (hB3 p n hqlab hnlab).mpr hreach
      refine ⟨n, hnin, ?_, hnp, hnpass⟩
      rw [← hids]
      exact hqv
    · refine ⟨q, ⟨hq1, hq2⟩, hqv, hqp, ?_⟩
      have := (hB1 q hqlab).2
      exact (passAt_revealTile_of_ne g p q hqp).mp this
  apply Finset.card_le_card_of_injOn
    (fun v => ((fun q : Pos => (getT (labelRegions g) q.1 q.2).regionId)
      (if h : ∃ q : Pos, inB (gridCols g) (gridRows g) q ∧
          (getT (labelRegions (revealTile g p)) q.1 q.2).regionId = v ∧ q ≠ p ∧
          passAt g q
        then Classical.choose h else (0, 0))))
  · intro v hv
    have hex := hrep v hv
    dsimp only
    rw [dif_pos hex]
    obtain ⟨hqin, hqv, hqp, hqpass⟩ := Classical.choose_spec hex
    have hqlab := hA2 _ hqin hqpass
    rw [Finset.mem_image]
    refine ⟨Classical.choose hex, ?_, rfl⟩
    rw [Finset.mem_filter, Finset.mem_product, Finset.mem_range, Finset.mem_range]
    exact ⟨⟨hqin.1, hqin.2⟩, hqlab⟩
  · intro v1 hv1 v2 hv2 heq
    have hex1 := hrep v1 (Finset.mem_coe.mp hv1)
    have hex2 := hrep v2 (Finset.mem_coe.mp hv2)
    dsimp only at heq
    rw [dif_pos hex1, dif_pos hex2] at heq
    obtain ⟨h1in, h1v, h1p, h1pass⟩ := Classical.choose_spec hex1
    obtain ⟨h2in, h2v, h2p, h2pass⟩ := Classical.choose_spec hex2
    have h1lab := hA2 _ h1in h1pass
    have h2lab := hA2 _ h2in h2pass
    have hreach := (hA3 _ _ h1lab h2lab).mp heq
    have hreach' : ReachP (gridCols g) (gridRows g) (passAt (revealTile g p))
        (Classical.choose hex1) (Classical.choose hex2) :=
      ReachP_mono hmono hreach
    have h1lab' := hB2 _ h1in (hmono _ h1pass)
    have h2lab' := hB2 _ h2in (hmono _ h2pass)
    have hids := (hB3 _ _ h1lab' h2lab').mpr hreach'
    rw [h1v, h2v] at hids
    exact hids

/-- A corridor with a secret door next to it. -/
def doorPairGrid : Grid := [[mkTile .corridor, mkTile .secretDoor]]

theorem reveal_secretDoor_regionCount_witness :
    Rect doorPairGrid ∧
    inB (gridCols doorPairGrid) (gridRows doorPairGrid) (1, 0) ∧
    (getT doorPairGrid 1 0).type = TileType.secretDoor ∧
    inB (gridCols doorPairGrid) (gridRows doorPairGrid) (0, 0) ∧
    adj4 (1, 0) (0, 0) ∧
    passAt doorPairGrid (0, 0) ∧
    regionCount (labelRegions (revealTile doorPairGrid (1, 0))) ≤
      regionCount (labelRegions doorPairGrid) :=
  ⟨by decide, by decide, rfl, by decide, by decide, by decide,
   reveal_secretDoor_regionCount doorPairGrid (by decide) (1, 0) (0, 0) (by decide)
     rfl (by decide) (by decide) (by decide)⟩

/-! ## C8: the search action -/

theorem revealed_bfsFill (cols rows cur : Nat) (fuel : Nat) (queue : List Pos)
    (g : Grid) (x y : Nat) :
    (getT (bfsFill cols rows cur fuel queue g) x y).revealed =
      (getT g x y).revealed := by
  induction fuel generalizing queue g with
  | zero => rfl
  | succ fuel ih =>
    cases queue with
    | nil => rfl
    | cons p queue =>
      simp only [bfsFill]
      split
      · rw [ih]
        rw [getT_updateTiles]
        split
        · rfl
        · rfl
      · rw [ih]

theorem revealed_labelLoop (cols rows : Nat) (todo : List Pos) (cur : Nat)
    (g : Grid) (x y : Nat) :
    (getT (labelLoop cols rows todo cur g) x y).revealed = (getT g x y).revealed := by
  induction todo generalizing cur g with
  | nil => rfl
  | cons p todo ih =>
    simp only [labelLoop]
    split
    · rw [ih, revealed_bfsFill]
    · rw [ih]

theorem revealed_labelRegions (g : Grid) (x y : Nat) :
    (getT (labelRegions g) x y).revealed = (getT g x y).revealed := by
  rw [labelRegions_def, revealed_labelLoop, getT_reset]
  split
  · rfl
  · rw [getT_oob g x y (by assumption)]

/-- The conditions under which the scan of `searchAround` flips the
`revealed` flag at `q`: the player has a region id, `q` carries the same
id, `q` is within Euclidean distance `SEARCH_DISTANCE` of the player,
holds an unrevealed trap or secret door, and the `Math.random()` draw
for `q` succeeds. -/
def searchHit (px py : Int) (pr : Option Nat) (draws : Nat → Nat → Bool)
    (t0 : Grid) (q : Pos) : Prop :=
  pr ≠ none ∧ (getT t0 q.1 q.2).regionId = pr ∧
  (px - q.1) ^ 2 + (py - q.2) ^ 2 ≤ ((SEARCH_DISTANCE : Int)) ^ 2 ∧
  ((getT t0 q.1 q.2).type = TileType.trap ∨
    (getT t0 q.1 q.2).type = TileType.secretDoor) ∧
  (getT t0 q.1 q.2).revealed = false ∧ draws q.1 q.2 = true

instance (px py : Int) (pr : Option Nat) (draws : Nat → Nat → Bool)
    (t0 : Grid) (q : Pos) : Decidable (searchHit px py pr draws t0 q) := by
  unfold searchHit
  infer_instance

/-- What one pass of the scan loop does: it sets `revealed` on exactly
the visited cells satisfying `searchHit`, touches nothing else, and
accumulates the corresponding feature names in scan order. -/
theorem searchFold_spec (px py : Int) (pr : Option Nat) (draws : Nat → Nat → Bool)
    (t0 : Grid) :
    ∀ (L : List Pos) (acc : Grid × List String),
      L.Nodup →
      (∀ q ∈ L, q.2 < acc.1.length ∧ q.1 < (acc.1.getD q.2 []).length) →
      (∀ q ∈ L, getT acc.1 q.1 q.2 = getT t0 q.1 q.2) →
      ((∀ q : Pos, q ∈ L → searchHit px py pr draws t0 q →
          getT (L.foldl (searchStep px py pr draws) acc).1 q.1 q.2 =
            { getT t0 q.1 q.2 with revealed := true }) ∧
        (∀ q : Pos, ¬(q ∈ L ∧ searchHit px py pr draws t0 q) →
          getT (L.foldl (searchStep px py pr draws) acc).1 q.1 q.2 =
            getT acc.1 q.1 q.2) ∧
        (L.foldl (searchStep px py pr draws) acc).2 =
          acc.2 ++ (L.filter (fun q => decide (searchHit px py pr draws t0 q))).map
            (fun q => if (getT t0 q.1 q.2).type = TileType.trap then "trap"
              else "secret door")) := by
  intro L
  induction L with
  | nil =>
    intro acc hnd hL hacc
    refine ⟨fun q hq => absurd hq (List.not_mem_nil q), fun q _ => rfl, ?_⟩
    simp
  | cons q0 L ih =>
    intro acc hnd hL hacc
    have hq0real := hL q0 (List.mem_cons_self _ _)
    have hq0t := hacc q0 (List.mem_cons_self _ _)
    simp only [List.foldl_cons]
    by_cases hhit : searchHit px py pr draws t0 q0
    · -- the scan reveals q0
      obtain ⟨h1, h2, h3, h4, h5, h6⟩ := hhit
      have hstep : searchStep px py pr draws acc q0 =
          (updateTiles acc.1 q0.1 q0.2 (fun t => { t with revealed := true }),
           acc.2 ++ [if (getT t0 q0.1 q0.2).type = TileType.trap then "trap"
             else "secret door"]) := by
        unfold searchStep
        rw [hq0t]
        rw [if_neg (by
          push_neg
          exact ⟨h1, by rw [h2]⟩)]
        rw [if_neg (by omega)]
        rw [if_pos ⟨h4, h5⟩, if_pos h6]
      rw [hstep]
      have hlen1 : (updateTiles acc.1 q0.1 q0.2
          (fun t => { t with revealed := true })).length = acc.1.length :=
        length_updateTiles _ _ _ _
      obtain ⟨ih1, ih2, ih3⟩ := ih
        (updateTiles acc.1 q0.1 q0.2 (fun t => { t with revealed := true }),
         acc.2 ++ [if (getT t0 q0.1 q0.2).type = TileType.trap then "trap"
           else "secret door"])
        (List.Nodup.of_cons hnd)
        (by
          intro q hq
          have := hL q (List.mem_cons_of_mem _ hq)
          constructor
          · rw [hlen1]
            exact this.1
          · rw [rowLen_updateTiles]
            exact this.2)
        (by
          intro q hq
          have hqne : q ≠ q0 := by
            intro hc
            subst hc
            exact (List.nodup_cons.mp hnd).1 hq
          rw [getT_updateTiles_other _ _ _ _ _ _ (pos_ne_of_ne hqne)]
          exact hacc q (List.mem_cons_of_mem _ hq))
      refine ⟨?_, ?_, ?_⟩
      · intro q hq hqhit
        rcases List.mem_cons.mp hq with rfl | hq
        · rw [ih2 q (by
            intro hc
            exact (List.nodup_cons.mp hnd).1 hc.1)]
          rw [getT_updateTiles, if_pos ⟨rfl, rfl, hq0real.1, hq0real.2⟩, hq0t]
        · exact ih1 q hq hqhit
      · intro q hq
        have hq' : ¬(q ∈ L ∧ searchHit px py pr draws t0 q) := by
          intro hc
          exact hq ⟨List.mem_cons_of_mem _ hc.1, hc.2⟩
        rw [ih2 q hq']
        have hqne : q ≠ q0 := by
          intro hc
          subst hc
          exact hq ⟨List.mem_cons_self _ _, ⟨h1, h2, h3, h4, h5, h6⟩⟩
        exact getT_updateTiles_other _ _ _ _ _ _ (pos_ne_of_ne hqne)
      · rw [ih3]
        rw [List.filter_cons_of_pos (by
          rw [decide_eq_true_eq]
          exact ⟨h1, h2, h3, h4, h5, h6⟩)]
        simp [List.append_assoc]
    · -- the scan leaves q0 alone
      have hstep : searchStep px py pr draws acc q0 = acc := by
        unfold searchStep
        rw [hq0t]
        dsimp only
        split_ifs with c1 c2 c3 c4 c5
        · rfl
        · rfl
        · exfalso
          push_neg at c1
          exact hhit ⟨c1.1, c1.2, by omega, c3.1, c3.2, c4⟩
        · exfalso
          push_neg at c1
          exact hhit ⟨c1.1, c1.2, by omega, c3.1, c3.2, c4⟩
        · rfl
        · rfl
      rw [hstep]
      obtain ⟨ih1, ih2, ih3⟩ := ih acc (List.Nodup.of_cons hnd)
        (fun q hq => hL q (List.mem_cons_of_mem _ hq))
        (fun q hq => hacc q (List.mem_cons_of_mem _ hq))
      refine ⟨?_, ?_, ?_⟩
      · intro q hq hqhit
        rcases List.mem_cons.mp hq with rfl | hq
        · exact absurd hqhit hhit
        · exact ih1 q hq hqhit
      · intro q hq
        refine ih2 q ?_
        intro hc
        exact hq ⟨List.mem_cons_of_mem _ hc.1, hc.2⟩
      · rw [ih3]
        rw [List.filter_cons_of_neg (by
          rw [decide_eq_true_eq]
          exact hhit)]

/-- C8: in every live game state with a well-formed square grid, the
search action (1) changes the `revealed` flag only at positions
satisfying `searchHit` — same regionId as the player's tile, squared
Euclidean distance at most `SEARCH_DISTANCE`², an unrevealed trap or
secret door, and a successful random draw — and only from `false` to
`true`; (2) every grid position satisfying `searchHit` comes out
revealed (with the all-successes draw oracle this reveals every in-scope
hidden trap and secret door); (3) if no secret door satisfies
`searchHit` then every tile's `regionId` is unchanged (trap reveals
alone never relabel); and (4) if some in-grid secret door satisfies
`searchHit` then the resulting tile grid is exactly `labelRegions`
re-run on the scanned grid. -/
theorem searchAround_spec (s : GameState) (draws : Nat → Nat → Bool)
    (pr : Option Nat)
    (hpr : pr = (getTI s.tiles s.player.x s.player.y).regionId)
    (hhp : 0 < s.player.hp)
    (hrows : gridRows s.tiles = s.gridSize)
    (hcols : gridCols s.tiles = s.gridSize)
    (hrect : Rect s.tiles) :
    (∀ q : Pos,
        (getT (searchAround s draws).tiles q.1 q.2).revealed ≠
          (getT s.tiles q.1 q.2).revealed →
        searchHit s.player.x s.player.y pr draws s.tiles q ∧
          (getT (searchAround s draws).tiles q.1 q.2).revealed = true) ∧
    (∀ q : Pos, q.1 < s.gridSize → q.2 < s.gridSize →
        searchHit s.player.x s.player.y pr draws s.tiles q →
        (getT (searchAround s draws).tiles q.1 q.2).revealed = true) ∧
    ((∀ q : Pos, ¬(searchHit s.player.x s.player.y pr draws s.tiles q ∧
          (getT s.tiles q.1 q.2).type = TileType.secretDoor)) →
      ∀ q : Pos, (getT (searchAround s draws).tiles q.1 q.2).regionId =
        (getT s.tiles q.1 q.2).regionId) ∧
    ((∃ q : Pos, q.1 < s.gridSize ∧ q.2 < s.gridSize ∧
        searchHit s.player.x s.player.y pr draws s.tiles q ∧
        (getT s.tiles q.1 q.2).type = TileType.secretDoor) →
      (searchAround s draws).tiles =
        labelRegions ((rowMajor s.gridSize s.gridSize).foldl
          (searchStep s.player.x s.player.y pr draws) (s.tiles, [])).1) := by
  have hguard : ¬(s.player.hp ≤ 0) := by omega
  have hlen : s.tiles.length = s.gridSize := hrows
  obtain ⟨f1, f2, f3⟩ := searchFold_spec s.player.x s.player.y pr draws s.tiles
    (rowMajor s.gridSize s.gridSize) (s.tiles, [])
    (rowMajor_nodup _ _)
    (by
      intro q hq
      obtain ⟨hx, hy⟩ := mem_rowMajor.mp hq
      show q.2 < s.tiles.length ∧ q.1 < (s.tiles.getD q.2 []).length
      have hrow : (s.tiles.getD q.2 []).length = gridCols s.tiles :=
        hrect q.2 (by unfold gridRows; omega)
      omega)
    (fun q _ => rfl)
  have hout : (searchAround s draws).tiles =
      (if (((rowMajor s.gridSize s.gridSize).foldl
            (searchStep s.player.x s.player.y pr draws) (s.tiles, [])).2.any
          (fun f => f == "secret door")) = true then
        labelRegions ((rowMajor s.gridSize s.gridSize).foldl
          (searchStep s.player.x s.player.y pr draws) (s.tiles, [])).1
      else ((rowMajor s.gridSize s.gridSize).foldl
        (searchStep s.player.x s.player.y pr draws) (s.tiles, [])).1) := by
    rw [hpr]
    unfold searchAround
    rw [if_neg hguard]
  have hrev : ∀ q : Pos,
      (getT (searchAround s draws).tiles q.1 q.2).revealed =
        (getT ((rowMajor s.gridSize s.gridSize).foldl
          (searchStep s.player.x s.player.y pr draws) (s.tiles, [])).1
          q.1 q.2).revealed := by
    intro q
    rw [hout]
    split
    · exact revealed_labelRegions _ _ _
    · rfl
  refine ⟨?_, ?_, ?_, ?_⟩
  · intro q hne
    by_cases hmem : q ∈ rowMajor s.gridSize s.gridSize ∧
        searchHit s.player.x s.player.y pr draws s.tiles q
    · refine ⟨hmem.2, ?_⟩
      rw [hrev q, f1 q hmem.1 hmem.2]
    · exact absurd (by rw [hrev q, f2 q hmem]) hne
  · intro q hx hy hhit
    rw [hrev q, f1 q (mem_rowMajor.mpr ⟨hx, hy⟩) hhit]
  · intro hnd q
    have hfalse : (((rowMajor s.gridSize s.gridSize).foldl
        (searchStep s.player.x s.player.y pr draws) (s.tiles, [])).2.any
        (fun f => f == "secret door")) = false := by
      by_contra hc
      rw [Bool.not_eq_false] at hc
      obtain ⟨f, hf, hfeq⟩ := List.any_eq_true.mp hc
      rw [f3] at hf
      rcases List.mem_append.mp hf with h | h
      · exact absurd h (List.not_mem_nil f)
      · obtain ⟨q', hq', hfq⟩ := List.mem_map.mp h
        obtain ⟨hq'mem, hq'hit⟩ := List.mem_filter.mp hq'
        rw [decide_eq_true_eq] at hq'hit
        rw [← hfq] at hfeq
        by_cases htr : (getT s.tiles q'.1 q'.2).type = TileType.trap
        · rw [if_pos htr] at hfeq
          simp at hfeq
        · rcases hq'hit.2.2.2.1 with h4 | h4
          · exact htr h4
          · exact hnd q' ⟨hq'hit, h4⟩
    rw [hout, if_neg (by rw [hfalse]; exact Bool.false_ne_true)]
    by_cases hmem : q ∈ rowMajor s.gridSize s.gridSize ∧
        searchHit s.player.x s.player.y pr draws s.tiles q
    · rw [f1 q hmem.1 hmem.2]
    · rw [f2 q hmem]
  · rintro ⟨q, hx, hy, hhit, hdoor⟩
    have htrue : (((rowMajor s.gridSize s.gridSize).foldl
        (searchStep s.player.x s.player.y pr draws) (s.tiles, [])).2.any
        (fun f => f == "secret door")) = true := by
      refine List.any_eq_true.mpr
        ⟨(if (getT s.tiles q.1 q.2).type = TileType.trap
          then "trap" else "secret door"), ?_, ?_⟩
      · rw [f3]
        refine List.mem_append.mpr (Or.inr ?_)
        refine List.mem_map.mpr ⟨q, ?_, rfl⟩
        refine List.mem_filter.mpr ⟨mem_rowMajor.mpr ⟨hx, hy⟩, ?_⟩
        rw [decide_eq_true_eq]
        exact hhit
      · rw [if_neg (by rw [hdoor]; decide)]
        decide
    rw [hout, if_pos htrue]

/-- A live 2×2 state whose four tiles all carry regionId 1, with a hidden
trap at (1,0) and a hidden secret door at (0,1). -/
def searchState : GameState :=
  { gridSize := 2,
    tiles := [[{ mkTile .room with regionId := some 1 },
               { mkTile .trap with regionId := some 1 }],
              [{ mkTile .secretDoor with regionId := some 1 },
               { mkTile .room with regionId := some 1 }]],
    player := { x := 0, y := 0, facing := none, hp := 10, maxHP := 40, atk := 6,
                defense := 4, gold := 0 },
    monstersById := [], archetypesById := [],
    combat := { active := false, monsterId := none, lastHitAt := none },
    log := [], inventory := [] }

theorem searchAround_spec_witness :
    (getT searchState.tiles 0 1).type = TileType.secretDoor ∧
    (getT searchState.tiles 0 1).revealed = false ∧
    (getT (searchAround searchState (fun _ _ => true)).tiles 0 1).revealed
      = true := by
  refine ⟨by decide, by decide, ?_⟩
  exact (searchAround_spec searchState (fun _ _ => true) (some 1) (by decide)
    (by decide) (by decide) (by decide) (by decide)).2.1 (0, 1)
    (by decide) (by decide) (by decide)
